import Mathlib

/-!
Verification of the Metal backend device layer (`src/backend/metal/src/device.rs`):
a shallow embedding of the resource-binding compiler (`create_pipeline_layout`),
descriptor set layout creation, shader specialization resolution, the compile
cache contract, the visibility tracker, buffer lifecycle binding and fence waits,
together with proofs of the specified properties.

Machine integers (`u32`/`u64` counters and sizes) are modelled as `Nat`:
the counters at play only ever grow by one per processed binding and the
device-limit checks keep them tiny, so wraparound is unreachable (and debug
builds of the source would abort on it).
-/

/-- The three shader stages handled by the backend (`naga::ShaderStage`). -/
inductive ShaderStage
  | vertex
  | fragment
  | compute
deriving DecidableEq, Repr

/-- `pso::ShaderStageFlags` restricted to the three bits the backend ever
tests (`VERTEX`, `FRAGMENT`, `COMPUTE`). -/
structure ShaderStageFlags where
  vertex : Bool
  fragment : Bool
  compute : Bool
deriving DecidableEq, Repr

/-- `flags.contains(stage.into())` for a single-stage bit. -/
def ShaderStageFlags.containsStage (f : ShaderStageFlags) : ShaderStage → Bool
  | .vertex => f.vertex
  | .fragment => f.fragment
  | .compute => f.compute

/-- `a |= b` on stage flags. -/
def ShaderStageFlags.union (a b : ShaderStageFlags) : ShaderStageFlags :=
  ⟨a.vertex || b.vertex, a.fragment || b.fragment, a.compute || b.compute⟩

/-- `a.intersects(b)` on stage flags. -/
def ShaderStageFlags.intersects (a b : ShaderStageFlags) : Bool :=
  (a.vertex && b.vertex) || (a.fragment && b.fragment) || (a.compute && b.compute)

/-- Modelled from the spec: `DescriptorContent` bitflags of the backend's
`native` module (not under `src/`); the seven flags are exactly those the
device code tests (`BUFFER`, `DYNAMIC_BUFFER`, `SIZED_BUFFER`, `TEXTURE`,
`SAMPLER`, `IMMUTABLE_SAMPLER`, `WRITABLE`). -/
structure DescriptorContent where
  buffer : Bool
  dynamic_buffer : Bool
  sized_buffer : Bool
  texture : Bool
  sampler : Bool
  immutable_sampler : Bool
  writable : Bool
deriving DecidableEq, Repr

/-- Per-stage resource counters (`native::ResourceData<ResourceIndex>`). -/
structure ResourceData where
  buffers : Nat
  textures : Nat
  samplers : Nat
deriving DecidableEq, Repr

/-- `ResourceData::new()`. -/
def ResourceData.new : ResourceData := ⟨0, 0, 0⟩

/-- Modelled from the spec: `ResourceData::add_many` of the `native` module
(not under `src/`) bumps each of the buffer/texture/sampler counters that the
content classification requires, by the element count. -/
def ResourceData.add_many (r : ResourceData) (c : DescriptorContent) (n : Nat) : ResourceData :=
  { buffers := r.buffers + (if c.buffer then n else 0)
    textures := r.textures + (if c.texture then n else 0)
    samplers := r.samplers + (if c.sampler then n else 0) }

/-- `ResourceData::add`, one element. -/
def ResourceData.add (r : ResourceData) (c : DescriptorContent) : ResourceData :=
  r.add_many c 1

/-- One per-binding-per-array-element entry of an emulated descriptor set
layout (`native::DescriptorLayout`). -/
structure DescriptorLayout where
  content : DescriptorContent
  stages : ShaderStageFlags
  binding : Nat
  array_index : Nat
deriving DecidableEq, Repr

/-- `native::DescriptorSetLayout`: the `Emulated` variant carries the sorted
per-element layout list and aggregate counts; the `ArgumentBuffer` variant
carries the union of stage flags (the encoder and binding map it also holds
play no part in pipeline-layout compilation beyond that flag). -/
inductive DescriptorSetLayout
  | emulated (layouts : List DescriptorLayout) (total : ResourceData)
  | argument_buffer (stage_flags : ShaderStageFlags)
deriving DecidableEq, Repr

/-- `naga::back::msl::BindSamplerTarget`. -/
inductive BindSamplerTarget
  | resource (slot : Nat)
  | inline (handle : Nat)
deriving DecidableEq, Repr

/-- `naga::back::msl::BindTarget`. -/
structure BindTarget where
  buffer : Option Nat
  texture : Option Nat
  sampler : Option BindSamplerTarget
  mutable : Bool
deriving DecidableEq, Repr

/-- `naga::back::msl::BindSource`: (stage, descriptor set index, binding id). -/
structure BindSource where
  stage : ShaderStage
  group : Nat
  binding : Nat
deriving DecidableEq, Repr

/-- `BTreeMap::insert` on the binding map, modelled as an association list:
replace the value of an existing key in place, otherwise append. -/
def bmInsert : List (BindSource × BindTarget) → BindSource → BindTarget →
    List (BindSource × BindTarget)
  | [], k, v => [(k, v)]
  | (k1, v1) :: rest, k, v =>
      if k1 = k then (k, v) :: rest else (k1, v1) :: bmInsert rest k v

/-- The per-stage accumulator of `create_pipeline_layout` (`StageInfo`). -/
structure StageInfo where
  stage : ShaderStage
  counters : ResourceData
  push_constant_buffer : Option Nat
  sizes_buffer : Option Nat
  sizes_count : Nat
deriving DecidableEq, Repr

/-- `StageInfo { stage, counters: ResourceData::new(), .. }` as initialized. -/
def StageInfo.new (s : ShaderStage) : StageInfo :=
  ⟨s, ResourceData.new, none, none, 0⟩

/-- Data replicated per shader stage (`native::MultiStageData`). -/
structure MultiStageData (α : Type) where
  vs : α
  ps : α
  cs : α
deriving DecidableEq, Repr

/-- Projection of per-stage data at a stage. -/
def MultiStageData.get {α : Type} : MultiStageData α → ShaderStage → α
  | d, .vertex => d.vs
  | d, .fragment => d.ps
  | d, .compute => d.cs

/-- The mutable state threaded through `create_pipeline_layout`:
the three `StageInfo`s, the inline sampler pool, the binding map and the
argument-buffer binding table. -/
structure PLState where
  vs : StageInfo
  ps : StageInfo
  cs : StageInfo
  inline_samplers : Nat
  binding_map : List (BindSource × BindTarget)
  argument_buffer_bindings : List ((ShaderStage × Nat) × Nat)
deriving DecidableEq, Repr

/-- Read the `StageInfo` of a stage out of the state. -/
def PLState.getInfo (st : PLState) : ShaderStage → StageInfo
  | .vertex => st.vs
  | .fragment => st.ps
  | .compute => st.cs

/-- Write the `StageInfo` of a stage back into the state. -/
def PLState.setInfo (st : PLState) (s : ShaderStage) (i : StageInfo) : PLState :=
  match s with
  | .vertex => { st with vs := i }
  | .fragment => { st with ps := i }
  | .compute => { st with cs := i }

/-- The iteration order of `stage_infos.iter_mut()`. -/
def stageList : List ShaderStage := [.vertex, .fragment, .compute]

/-- `u32` all-ones, the `!0` marker used for absent per-stage slots. -/
def NOT0 : Nat := 4294967295

/-- The `BindTarget` built for one layout entry at the current counters:
a slot of each category the content requires, taken at the category's
current counter value; an immutable sampler binds inline at the next
inline-sampler handle. -/
def mkTarget (l : DescriptorLayout) (counters : ResourceData)
    (inline_handle : Nat) : BindTarget :=
  { buffer := if l.content.buffer then some counters.buffers else none
    texture := if l.content.texture then some counters.textures else none
    sampler :=
      if l.content.immutable_sampler then
        some (.inline inline_handle)
      else if l.content.sampler then
        some (.resource counters.samplers)
      else
        none
    mutable := l.content.writable }

/-- The body of the per-stage loop over one emulated descriptor layout entry
in `create_pipeline_layout`: skip stages not in the entry's mask, build the
`BindTarget` from the current counters, bump the counters by the entry's
content, and record the binding-map entry only for array index 0. -/
def processLayoutStage (set_index : Nat) (l : DescriptorLayout) (st : PLState)
    (s : ShaderStage) : PLState :=
  if l.stages.containsStage s = false then st
  else
    let info := st.getInfo s
    let target := mkTarget l info.counters st.inline_samplers
    let st1 :=
      if l.content.immutable_sampler then
        { st with inline_samplers := st.inline_samplers + 1 }
      else st
    let st2 := st1.setInfo s { info with counters := info.counters.add l.content }
    if l.array_index = 0 then
      { st2 with binding_map := bmInsert st2.binding_map ⟨s, set_index, l.binding⟩ target }
    else st2

/-- Bump `sizes_count` of every stage contained in the given mask (the
`SIZED_BUFFER` bookkeeping of the per-layout loop). -/
def bumpSizesCount (st : PLState) (stages : ShaderStageFlags) : PLState :=
  let st := if stages.vertex then { st with vs := { st.vs with sizes_count := st.vs.sizes_count + 1 } } else st
  let st := if stages.fragment then { st with ps := { st.ps with sizes_count := st.ps.sizes_count + 1 } } else st
  if stages.compute then { st with cs := { st.cs with sizes_count := st.cs.sizes_count + 1 } } else st

/-- Processing of one emulated descriptor layout entry: the `SIZED_BUFFER`
count, the dynamic-buffer record (current buffer counters, `!0` for absent
stages), then the per-stage slot allocation. -/
def processSetLayoutEntry (set_index : Nat)
    (acc : PLState × List (MultiStageData Nat) × List (Nat × ShaderStageFlags))
    (l : DescriptorLayout) :
    PLState × List (MultiStageData Nat) × List (Nat × ShaderStageFlags) :=
  let st0 := if l.content.sized_buffer then bumpSizesCount acc.1 l.stages else acc.1
  let sized_buffer_bindings :=
    if l.content.sized_buffer then acc.2.2 ++ [(l.binding, l.stages)] else acc.2.2
  let dynamic_buffers :=
    if l.content.dynamic_buffer then
      acc.2.1 ++
        [⟨if l.stages.vertex then st0.vs.counters.buffers else NOT0,
          if l.stages.fragment then st0.ps.counters.buffers else NOT0,
          if l.stages.compute then st0.cs.counters.buffers else NOT0⟩]
    else acc.2.1
  let st := stageList.foldl (fun st s => processLayoutStage set_index l st s) st0
  (st, dynamic_buffers, sized_buffer_bindings)

/-- The per-stage loop body of the `ArgumentBuffer` case of
`create_pipeline_layout`: the whole encoded set consumes exactly one buffer
slot in every participating stage, recorded in the argument-buffer binding
table rather than the binding map. -/
def processArgStage (set_index : Nat) (stage_flags : ShaderStageFlags)
    (st : PLState) (s : ShaderStage) : PLState :=
  if stage_flags.containsStage s = false then st
  else
    let info := st.getInfo s
    let st1 := { st with argument_buffer_bindings :=
      st.argument_buffer_bindings ++ [((s, set_index), info.counters.buffers)] }
    st1.setInfo s
      { info with counters := { info.counters with buffers := info.counters.buffers + 1 } }

/-- Per-set record kept in the pipeline layout (`native::DescriptorSetInfo`). -/
structure DescriptorSetInfo where
  offsets : MultiStageData ResourceData
  dynamic_buffers : List (MultiStageData Nat)
  sized_buffer_bindings : List (Nat × ShaderStageFlags)
deriving DecidableEq, Repr

/-- Processing of one descriptor set layout at its set index: snapshot the
counters as the set's offsets, then walk the layout entries (emulated) or
allocate a single buffer slot per participating stage (argument buffer). -/
def processSet (set_index : Nat) (sl : DescriptorSetLayout) (st : PLState) :
    PLState × DescriptorSetInfo :=
  let offsets : MultiStageData ResourceData :=
    ⟨st.vs.counters, st.ps.counters, st.cs.counters⟩
  match sl with
  | .emulated desc_layouts _total =>
      let acc := desc_layouts.foldl (processSetLayoutEntry set_index) (st, [], [])
      (acc.1, ⟨offsets, acc.2.1, acc.2.2⟩)
  | .argument_buffer stage_flags =>
      let st := stageList.foldl (processArgStage set_index stage_flags) st
      (st, ⟨offsets, [], []⟩)

/-- The enumerated loop over descriptor set layouts. -/
def processSets : List DescriptorSetLayout → Nat → PLState →
    PLState × List DescriptorSetInfo
  | [], _, st => (st, [])
  | sl :: rest, i, st =>
      let p1 := processSet i sl st
      let p2 := processSets rest (i + 1) p1.1
      (p2.1, p1.2 :: p2.2)

/-- A push-constant range: `(ShaderStageFlags, Range<u32>)`, with the range
given by its `start` and `end` byte offsets (`stop` names the `end` field). -/
structure PushConstantRange where
  start : Nat
  stop : Nat
deriving DecidableEq, Repr

/-- First phase of `create_pipeline_layout`: for each stage, the maximum
`range.end / 4` over push-constant ranges whose mask contains the stage. -/
def pcLimitsRaw (ranges : List (ShaderStageFlags × PushConstantRange)) :
    MultiStageData Nat :=
  ranges.foldl
    (fun acc r =>
      ⟨if r.1.vertex then max (r.2.stop / 4) acc.vs else acc.vs,
       if r.1.fragment then max (r.2.stop / 4) acc.ps else acc.ps,
       if r.1.compute then max (r.2.stop / 4) acc.cs else acc.cs⟩)
    ⟨0, 0, 0⟩

/-- `LIMIT_MASK` rounding: `if limit > 3 { limit = (limit + 3) & !3 }`
(for `Nat` the masked value is `4 * ((limit + 3) / 4)`). -/
def roundPcLimit (limit : Nat) : Nat :=
  if limit > 3 then 4 * ((limit + 3) / 4) else limit

/-- The rounded per-stage push-constant word limits. -/
def pcLimits (ranges : List (ShaderStageFlags × PushConstantRange)) :
    MultiStageData Nat :=
  let raw := pcLimitsRaw ranges
  ⟨roundPcLimit raw.vs, roundPcLimit raw.ps, roundPcLimit raw.cs⟩

/-- Reserve the push-constant buffer slot of one stage when its limit is
nonzero (`info.push_constant_buffer = Some(info.counters.buffers)`). -/
def assignPushConstant (limit : Nat) (i : StageInfo) : StageInfo :=
  if limit ≠ 0 then
    { i with push_constant_buffer := some i.counters.buffers
             counters := { i.counters with buffers := i.counters.buffers + 1 } }
  else i

/-- Device capability limits consulted by the final check
(`shared.private_caps`). -/
structure PrivateCaps where
  max_buffers_per_stage : Nat
  max_textures_per_stage : Nat
  max_samplers_per_stage : Nat
deriving DecidableEq, Repr

/-- `hal::device::OutOfMemory`. -/
inductive OutOfMemory
  | Host
  | Device
deriving DecidableEq, Repr

/-- Final per-stage pass: reserve the sizes buffer when the stage saw sized
bindings, then fail with `OutOfMemory::Host` if any counter exceeds its
per-stage device limit. -/
def finalizeStage (caps : PrivateCaps) (i : StageInfo) : Except OutOfMemory StageInfo :=
  let i :=
    if i.sizes_count ≠ 0 then
      { i with sizes_buffer := some i.counters.buffers
               counters := { i.counters with buffers := i.counters.buffers + 1 } }
    else i
  if i.counters.buffers > caps.max_buffers_per_stage
      || i.counters.textures > caps.max_textures_per_stage
      || i.counters.samplers > caps.max_samplers_per_stage then
    .error .Host
  else
    .ok i

/-- `native::PushConstantInfo`. -/
structure PushConstantInfo where
  count : Nat
  buffer_index : Nat
deriving DecidableEq, Repr

/-- The compiled pipeline layout (`native::PipelineLayout`), holding the
naga option fields the claims are about (binding map, inline sampler pool
size, per-stage push-constant and sizes-buffer slots) next to the per-set
infos and the per-stage totals. -/
structure PipelineLayout where
  binding_map : List (BindSource × BindTarget)
  inline_samplers : Nat
  per_stage_push_constant_buffer : MultiStageData (Option Nat)
  per_stage_sizes_buffer : MultiStageData (Option Nat)
  infos : List DescriptorSetInfo
  total : MultiStageData ResourceData
  push_constants : MultiStageData (Option PushConstantInfo)
  total_push_constants : Nat
deriving DecidableEq, Repr

/-- The state of `create_pipeline_layout` after the push-constant phase:
fresh per-stage infos with the push-constant buffer slots reserved. -/
def initialState (push_constant_ranges : List (ShaderStageFlags × PushConstantRange)) :
    PLState :=
  let limits := pcLimits push_constant_ranges
  { vs := assignPushConstant limits.vs (StageInfo.new .vertex)
    ps := assignPushConstant limits.ps (StageInfo.new .fragment)
    cs := assignPushConstant limits.cs (StageInfo.new .compute)
    inline_samplers := 0
    binding_map := []
    argument_buffer_bindings := [] }

/-- `Device::create_pipeline_layout`: push-constant placement, descriptor-set
slot allocation, sizes-buffer reservation and the device-limit check. -/
def create_pipeline_layout (caps : PrivateCaps)
    (set_layouts : List DescriptorSetLayout)
    (push_constant_ranges : List (ShaderStageFlags × PushConstantRange)) :
    Except OutOfMemory PipelineLayout :=
  let limits := pcLimits push_constant_ranges
  let pr := processSets set_layouts 0 (initialState push_constant_ranges)
  let st := pr.1
  let infos := pr.2
  match finalizeStage caps st.vs with
  | .error e => .error e
  | .ok vsInfo =>
    match finalizeStage caps st.ps with
    | .error e => .error e
    | .ok psInfo =>
      match finalizeStage caps st.cs with
      | .error e => .error e
      | .ok csInfo =>
        .ok
          { binding_map := st.binding_map
            inline_samplers := st.inline_samplers
            per_stage_push_constant_buffer :=
              ⟨vsInfo.push_constant_buffer, psInfo.push_constant_buffer,
               csInfo.push_constant_buffer⟩
            per_stage_sizes_buffer :=
              ⟨vsInfo.sizes_buffer, psInfo.sizes_buffer, csInfo.sizes_buffer⟩
            infos := infos
            total := ⟨vsInfo.counters, psInfo.counters, csInfo.counters⟩
            push_constants :=
              ⟨vsInfo.push_constant_buffer.map (fun bi => ⟨limits.vs, bi⟩),
               psInfo.push_constant_buffer.map (fun bi => ⟨limits.ps, bi⟩),
               csInfo.push_constant_buffer.map (fun bi => ⟨limits.cs, bi⟩)⟩
            total_push_constants := max (max limits.vs limits.ps) limits.cs }

/-- Input binding description (`pso::DescriptorSetLayoutBinding`), with the
descriptor type replaced by its `DescriptorContent` classification (the
`From<pso::DescriptorType>` impl lives in the backend's `native` module,
which is not under `src/`; all uses below consume only the classification). -/
structure DescriptorSetLayoutBinding where
  binding : Nat
  content : DescriptorContent
  count : Nat
  stage_flags : ShaderStageFlags
  immutable_samplers : Bool
deriving DecidableEq, Repr

/-- The key order of `desc_layouts.sort_by_key(|dl| (dl.binding, dl.array_index))`:
lexicographic on (binding, array index). -/
def layoutKeyLe (a b : DescriptorLayout) : Bool :=
  Nat.blt a.binding b.binding ||
    (Nat.beq a.binding b.binding && Nat.ble a.array_index b.array_index)

/-- Helper of `dedupMerge`: `b` is the last retained element; a following
element with the same (binding, array index) key is merged into it
(`b.stages |= a.stages`, `a` removed), any other element starts a new run. -/
def dedupMergeGo (b : DescriptorLayout) : List DescriptorLayout → List DescriptorLayout
  | [] => [b]
  | a :: rest =>
      if a.binding = b.binding ∧ a.array_index = b.array_index then
        dedupMergeGo { b with stages := b.stages.union a.stages } rest
      else
        b :: dedupMergeGo a rest

/-- `desc_layouts.dedup_by(..)` of `create_descriptor_set_layout`: collapse
consecutive entries sharing a (binding, array index) key, unioning stage
masks into the earlier entry. -/
def dedupMerge : List DescriptorLayout → List DescriptorLayout
  | [] => []
  | x :: xs => dedupMergeGo x xs

/-- `Device::create_descriptor_set_layout`, `Emulated` strategy (the
`argument_buffers` capability disabled): accumulate the aggregate counts,
tag immutable-sampler bindings, expand every binding into one
`DescriptorLayout` per array element, sort by (binding, array index) and
deduplicate with stage-mask union. The immutable sampler data collection is
mirrored as the list of tagged (binding, array index) pairs. -/
def create_descriptor_set_layout (binding_iter : List DescriptorSetLayoutBinding) :
    Except OutOfMemory DescriptorSetLayout :=
  let step := fun (acc : ResourceData × List (Nat × Nat) × List DescriptorLayout)
      (slb : DescriptorSetLayoutBinding) =>
    let (total, tmp_samplers, desc_layouts) := acc
    let content := slb.content
    let total := total.add_many content slb.count
    let (content, tmp_samplers) :=
      if slb.immutable_samplers then
        ({ content with immutable_sampler := true },
         tmp_samplers ++ (List.range slb.count).map (fun array_index => (slb.binding, array_index)))
      else (content, tmp_samplers)
    let desc_layouts := desc_layouts ++ (List.range slb.count).map
      (fun array_index => (⟨content, slb.stage_flags, slb.binding, array_index⟩ : DescriptorLayout))
    (total, tmp_samplers, desc_layouts)
  let out := binding_iter.foldl step (ResourceData.new, [], [])
  let desc_layouts := (out.2.2.mergeSort layoutKeyLe)
  let desc_layouts := dedupMerge desc_layouts
  .ok (.emulated desc_layouts out.1)

/-- `FunctionError` of the shader function resolution. -/
inductive FunctionError
  | InvalidEntryPoint
  | MissingRequiredSpecialization
  | BadSpecialization
deriving DecidableEq, Repr

/-- A compiled function constant as enumerated from the module's
`function_constants_dictionary`: its numeric id and required flag. -/
structure FunctionConstant where
  index : Nat
  required : Bool
deriving DecidableEq, Repr

/-- A caller-supplied specialization constant (`pso::SpecializationConstant`):
its numeric id and the start of its byte range into the specialization data. -/
structure SpecializationConstant where
  id : Nat
  range_start : Nat
deriving DecidableEq, Repr

/-- The matching loop of `get_final_function` over the module's declared
constants: a declared id supplied by the caller records its value (modelled
by the data offset), a missing optional constant is skipped, and a missing
required constant fails with `MissingRequiredSpecialization`. -/
def resolveConstants (constants : List SpecializationConstant) :
    List FunctionConstant → Except FunctionError (List (Nat × Nat))
  | [] => .ok []
  | fc :: rest =>
      match constants.find? (fun c => Nat.beq c.id fc.index) with
      | some c =>
          match resolveConstants constants rest with
          | .ok l => .ok ((fc.index, c.range_start) :: l)
          | .error e => .error e
      | none =>
          if fc.required then .error .MissingRequiredSpecialization
          else resolveConstants constants rest

/-- The specialization phase of `get_final_function`: with specialization
unsupported, or with a module declaring no constants, the function is
returned untouched (no constant values set); otherwise the declared
constants are matched against the supplied ones. The native library
retrievals before and after this phase are abstracted: the result is the
list of (constant id, data offset) values that would be set. -/
def get_final_function (declared : List FunctionConstant)
    (constants : List SpecializationConstant)
    (function_specialization : Bool) : Except FunctionError (List (Nat × Nat)) :=
  if function_specialization = false then .ok []
  else if declared.length = 0 then .ok []
  else resolveConstants constants declared

/-- Modelled from the spec: `get_or_create_with` of the shader compile cache
(`pipeline_cache::SpvToMsl`, not under `src/`). A key the cache already
holds is answered from the stored value and never recomputed; a fresh key
runs the translation once and stores its result. The third component records
whether the translation ran. Concurrent callers serialize on the cache's
internal synchronization, so a trace of (linearized) requests captures the
concurrent behaviour. -/
def getOrCreateWith {κ υ : Type} [DecidableEq κ] (f : κ → υ)
    (cache : List (κ × υ)) (k : κ) : υ × List (κ × υ) × Bool :=
  match cache.lookup k with
  | some v => (v, cache, false)
  | none => (f k, cache ++ [(k, f k)], true)

/-- A linearized trace of compile-cache requests: each request is answered by
`getOrCreateWith` against the evolving cache; the responses are returned
paired with their computed-now flag. -/
def runRequests {κ υ : Type} [DecidableEq κ] (f : κ → υ)
    (cache : List (κ × υ)) : List κ → List (υ × Bool) × List (κ × υ)
  | [] => ([], cache)
  | k :: ks =>
      let r := getOrCreateWith f cache k
      let rest := runRequests f r.2.1 ks
      ((r.1, r.2.2) :: rest.1, rest.2)

/-- A `Range<query::Id>` / byte range: `start` and `end` (named `stop`). -/
structure QueryRange where
  start : Nat
  stop : Nat
deriving DecidableEq, Repr

/-- `VisibilityShared::are_available`: every availability flag of the queried
id range, offset by the pool's base id, is nonzero. The availability words
of the shared visibility buffer are modelled as a function from id to value. -/
def are_available (availability : Nat → Nat) (pool_base : Nat)
    (queries : QueryRange) : Bool :=
  (List.range' queries.start (queries.stop - queries.start)).all
    (fun id => availability (pool_base + id) != 0)

/-- The readiness flag computed by `get_query_pool_results` on an occlusion
pool: with `WAIT` the call holds the allocator lock and waits on the
condition variable until `are_available` holds, reporting `true`; without
`WAIT` it reports the immediate `are_available` snapshot. Only the readiness
flag is modelled — the result copy is raw pointer traffic over the shared
buffer. -/
def get_query_pool_results_ready (availability : Nat → Nat)
    (pool_range : QueryRange) (queries : QueryRange) (wait : Bool) : Bool :=
  if wait then true
  else are_available availability pool_range.start queries

/-- `native::MemoryHeap`: exactly one of private, public (memory type and
shared cpu buffer, kept as its length) or native (opaque heap). -/
inductive MemoryHeap
  | Private
  | Public (memory_type : Nat) (cpu_buffer_len : Nat)
  | Native
deriving DecidableEq, Repr

/-- `native::Memory`: a heap kind plus the allocation's byte size. -/
structure Memory where
  heap : MemoryHeap
  size : Nat
deriving DecidableEq, Repr

/-- `memory::Segment`: mapping offset and optional size. -/
structure Segment where
  offset : Nat
  size : Option Nat
deriving DecidableEq, Repr

/-- Modelled from the spec: `Memory::resolve` of the `native` module (not
under `src/`) turns a mapping segment into the concrete byte range — from
the segment's offset, extending by its explicit size when given and to the
end of the memory otherwise. -/
def Memory.resolve (m : Memory) (s : Segment) : QueryRange :=
  ⟨s.offset, match s.size with
    | some sz => s.offset + sz
    | none => m.size⟩

/-- `buffer::Usage`, restricted to the two texel bits the device code tests. -/
structure BufferUsage where
  uniform_texel : Bool
  storage_texel : Bool
deriving DecidableEq, Repr

/-- `native::Buffer`: `Unbound` (usage, size, name) or `Bound` (native
handle elided, byte range within its memory). -/
inductive Buffer
  | Unbound (usage : BufferUsage) (size : Nat) (name : String)
  | Bound (range_start : Nat) (range_stop : Nat)
deriving DecidableEq, Repr

/-- `Device::bind_buffer_memory`: aborts (the Rust `panic`, modelled as
`none`) when the buffer is already `Bound`; otherwise transitions it to
`Bound`, with the range `0..size` for private and freshly allocated native
buffers and `offset..offset+size` within the public heap's shared buffer. -/
def bind_buffer_memory (memory : Memory) (offset : Nat) (buffer : Buffer) :
    Option Buffer :=
  match buffer with
  | .Bound _ _ => none
  | .Unbound _usage size _name =>
      some (match memory.heap with
        | .Native => .Bound 0 size
        | .Public _mt _len => .Bound offset (offset + size)
        | .Private => .Bound 0 size)

/-- `memory::Requirements`. -/
structure Requirements where
  size : Nat
  alignment : Nat
  type_mask : Nat
deriving DecidableEq, Repr

/-- `Device::get_buffer_requirements`: aborts (`none`) on a `Bound` buffer;
otherwise takes the maximum size/alignment over the per-memory-type heap
probes when `resource_heaps` is enabled (the native
`heap_buffer_size_and_align` probe abstracted as a function argument),
rounds the size up to 256 bytes and drops the SHARED memory type from the
mask for texel-view-capable buffers on devices without shared textures. -/
def get_buffer_requirements (resource_heaps : Bool) (buffer_alignment : Nat)
    (memory_types_len : Nat) (heap_probe : Nat → Nat × Nat)
    (shared_textures : Bool) (buffer : Buffer) : Option Requirements :=
  match buffer with
  | .Bound _ _ => none
  | .Unbound usage size _name =>
      let probed :=
        if resource_heaps then
          (List.range memory_types_len).foldl
            (fun (acc : Nat × Nat) i =>
              (max acc.1 (heap_probe i).1, max acc.2 (heap_probe i).2))
            (size, buffer_alignment)
        else (size, buffer_alignment)
      let supports_texel_view := usage.uniform_texel || usage.storage_texel
      some { size := 256 * ((probed.1 + 255) / 256)
             alignment := probed.2
             type_mask := if !supports_texel_view || shared_textures then 7 else 5 }

/-- `Device::map_memory`: resolves the segment and then panics (`none`) for
`Native` and `Private` heaps; for a `Public` heap it returns the cpu
buffer's contents pointer advanced by the range start (the pointer modelled
by that offset). -/
def map_memory (memory : Memory) (segment : Segment) : Option Nat :=
  let range := memory.resolve segment
  match memory.heap with
  | .Public _ _ => some range.start
  | .Native => none
  | .Private => none

/-- `native::Fence`: `Idle { signaled }` or `PendingSubmission(cmd_buf)`,
the enqueued command buffer abstracted by an id. -/
inductive Fence
  | Idle (signaled : Bool)
  | PendingSubmission (cmd_buf : Nat)
deriving DecidableEq, Repr

/-- `u64` all-ones, the `!0` infinite-timeout marker. -/
def U64MAX : Nat := 18446744073709551615

/-- `Device::wait_for_fence`: an `Idle` fence immediately yields its
signaled flag; a pending fence with infinite timeout blocks on native
completion (`wait_until_completed`, always returning `true`); otherwise the
timeout-polling sleep loop runs, abstracted as a function of the handle and
the timeout. The second component records whether that polling loop was
entered. -/
def wait_for_fence (poll_loop : Nat → Nat → Bool) (fence : Fence)
    (timeout_ns : Nat) : Bool × Bool :=
  match fence with
  | .Idle signaled => (signaled, false)
  | .PendingSubmission cmd_buf =>
      if timeout_ns = U64MAX then (true, false)
      else (poll_loop cmd_buf timeout_ns, true)

/-- The sampler-resource slot of a target: inline samplers occupy no
sampler slot. -/
def catSamplerRes (t : BindTarget) : Option Nat :=
  match t.sampler with
  | some (.resource n) => some n
  | _ => none

/-- Every slot of the given category recorded in the binding map lies below
the owning stage's category counter. -/
def SlotBound (cat : BindTarget → Option Nat) (cnt : ResourceData → Nat)
    (st : PLState) : Prop :=
  ∀ kv ∈ st.binding_map, ∀ x, cat kv.2 = some x →
    x < cnt (st.getInfo kv.1.stage).counters

/-- No two distinct binding-map entries of one stage share a slot of the
given category. -/
def SlotsDistinct (cat : BindTarget → Option Nat)
    (m : List (BindSource × BindTarget)) : Prop :=
  ∀ kv1 ∈ m, ∀ kv2 ∈ m, kv1 ≠ kv2 → kv1.1.stage = kv2.1.stage →
    ∀ x1 x2, cat kv1.2 = some x1 → cat kv2.2 = some x2 → x1 ≠ x2

/-- The push-constant word count as the spec words it: the maximum referenced
byte offset (`range.end`) among the ranges whose mask includes the stage,
converted to 4-byte words, rounded up to a 4-word boundary when above three
words. -/
def spec_push_constant_words (ranges : List (ShaderStageFlags × PushConstantRange))
    (s : ShaderStage) : Nat :=
  roundPcLimit
    (((ranges.filter (fun r => r.1.containsStage s)).map (fun r => r.2.stop)).foldr max 0 / 4)

/-- A uniform-buffer content classification (`BUFFER` only). -/
def uniformBufferContent : DescriptorContent :=
  ⟨true, false, false, false, false, false, false⟩

/-- A sampled-image content classification (`TEXTURE` only). -/
def sampledImageContent : DescriptorContent :=
  ⟨false, false, false, true, false, false, false⟩

/-- One descriptor set of the end-to-end example: binding 0 a uniform buffer
visible to vertex and fragment, binding 1 a sampled texture visible to
fragment. -/
def exampleSet : DescriptorSetLayout :=
  .emulated
    [⟨uniformBufferContent, ⟨true, true, false⟩, 0, 0⟩,
     ⟨sampledImageContent, ⟨false, true, false⟩, 1, 0⟩]
    ⟨1, 1, 0⟩

/-- The example device limits (31 buffers, 31 textures, 16 samplers per
stage). -/
def exampleCaps : PrivateCaps := ⟨31, 31, 16⟩

/-- The example push-constant declaration: 64 bytes visible to vertex. -/
def exampleRanges : List (ShaderStageFlags × PushConstantRange) :=
  [(⟨true, false, false⟩, ⟨0, 64⟩)]

/-- C8: `are_available(pool_base, queries)` is `true` exactly when every
availability flag in the queried id range is nonzero — so while any flag of
a leased range of size K is still zero it is `false` — and a non-blocking
(no `WAIT`) `get_query_pool_results` reports exactly this snapshot as its
readiness flag. -/
theorem C8_are_available_iff_all_flags_nonzero (availability : Nat → Nat)
    (pool_base : Nat) (queries : QueryRange) :
    (are_available availability pool_base queries = true ↔
      ∀ id, queries.start ≤ id → id < queries.stop →
        availability (pool_base + id) ≠ 0)
    ∧ (∀ pool_range : QueryRange,
        get_query_pool_results_ready availability pool_range queries false =
          are_available availability pool_range.start queries) := by
  constructor
  · simp only [are_available, List.all_eq_true, List.mem_range'_1, bne_iff_ne, ne_eq]
    constructor
    · intro h id h1 h2
      exact h id ⟨h1, by omega⟩
    · intro h id hm
      exact h id hm.1 (by omega)
  · intro pool_range
    rfl

/-- C8 witness: on a 3-flag snapshot with one flag still zero the poll
reports `false`, and once all are nonzero it reports `true`. -/
theorem C8_are_available_witness :
    are_available (fun i => if i = 6 then 0 else 1) 5 ⟨0, 3⟩ = false ∧
    are_available (fun _ => 1) 5 ⟨0, 3⟩ = true ∧
    get_query_pool_results_ready (fun i => if i = 6 then 0 else 1) ⟨5, 8⟩ ⟨0, 3⟩ false = false := by
  refine ⟨?_, ?_, ?_⟩
  · have h := (C8_are_available_iff_all_flags_nonzero
      (fun i => if i = 6 then 0 else 1) 5 ⟨0, 3⟩).1
    by_contra hc
    have ht : are_available (fun i => if i = 6 then 0 else 1) 5 ⟨0, 3⟩ = true := by
      revert hc
      cases are_available (fun i => if i = 6 then 0 else 1) 5 ⟨0, 3⟩ <;> simp
    have := h.mp ht 1 (by decide) (by decide)
    simp at this
  · exact (C8_are_available_iff_all_flags_nonzero (fun _ => 1) 5 ⟨0, 3⟩).1.mpr
      (fun id h1 h2 => by simp)
  · have h := (C8_are_available_iff_all_flags_nonzero
      (fun i => if i = 6 then 0 else 1) 5 ⟨0, 3⟩).2 ⟨5, 8⟩
    rw [h]
    decide

/-- C9: calling `bind_buffer_memory` or `get_buffer_requirements` on a buffer
already in the `Bound` state, or `map_memory` on memory whose heap is
`Private` or `Native`, deterministically aborts (the Rust `panic`, modelled
as `none`) instead of succeeding or returning a recoverable error. -/
theorem C9_lifecycle_violations_abort :
    (∀ (memory : Memory) (offset rs re : Nat),
      bind_buffer_memory memory offset (.Bound rs re) = none)
    ∧ (∀ (resource_heaps : Bool) (buffer_alignment memory_types_len : Nat)
        (heap_probe : Nat → Nat × Nat) (shared_textures : Bool) (rs re : Nat),
      get_buffer_requirements resource_heaps buffer_alignment memory_types_len
        heap_probe shared_textures (.Bound rs re) = none)
    ∧ (∀ (size : Nat) (segment : Segment),
      map_memory ⟨.Private, size⟩ segment = none)
    ∧ (∀ (size : Nat) (segment : Segment),
      map_memory ⟨.Native, size⟩ segment = none) := by
  refine ⟨fun _ _ _ _ => rfl, fun _ _ _ _ _ _ _ => rfl, fun _ _ => rfl, fun _ _ => rfl⟩

/-- C10: for every timeout, `wait_for_fence` on an `Idle` fence immediately
returns the fence's signaled flag — `true` for a signaled and `false` for an
unsignaled idle fence — without entering the timeout-polling loop, and the
polling loop is entered only for fences in the `PendingSubmission` state. -/
theorem C10_wait_for_fence_idle_immediate :
    (∀ (poll_loop : Nat → Nat → Bool) (signaled : Bool) (timeout_ns : Nat),
      wait_for_fence poll_loop (.Idle signaled) timeout_ns = (signaled, false))
    ∧ (∀ (poll_loop : Nat → Nat → Bool) (fence : Fence) (timeout_ns : Nat),
      (wait_for_fence poll_loop fence timeout_ns).2 = true →
        ∃ cmd_buf, fence = .PendingSubmission cmd_buf) := by
  constructor
  · intro _ _ _
    rfl
  · intro poll_loop fence timeout_ns h
    cases fence with
    | Idle s => simp [wait_for_fence] at h
    | PendingSubmission cb => exact ⟨cb, rfl⟩

/-- C3: on three descriptor sets of one uniform buffer (vertex+fragment) and
one sampled texture (fragment) each, plus a 64-byte vertex push-constant
range, `create_pipeline_layout` assigns vertex buffer slots
push-constant@0, set0@1, set1@2, set2@3; fragment buffer slots set0@0,
set1@1, set2@2; fragment texture slots set0@0, set1@1, set2@2; and no
vertex texture or sampler slots. -/
theorem C3_end_to_end_example :
    ∃ L, create_pipeline_layout exampleCaps [exampleSet, exampleSet, exampleSet] exampleRanges
        = .ok L
      ∧ L.push_constants.vs = some ⟨16, 0⟩
      ∧ L.per_stage_push_constant_buffer.vs = some 0
      ∧ L.binding_map = [
          (⟨.vertex, 0, 0⟩, ⟨some 1, none, none, false⟩),
          (⟨.fragment, 0, 0⟩, ⟨some 0, none, none, false⟩),
          (⟨.fragment, 0, 1⟩, ⟨none, some 0, none, false⟩),
          (⟨.vertex, 1, 0⟩, ⟨some 2, none, none, false⟩),
          (⟨.fragment, 1, 0⟩, ⟨some 1, none, none, false⟩),
          (⟨.fragment, 1, 1⟩, ⟨none, some 1, none, false⟩),
          (⟨.vertex, 2, 0⟩, ⟨some 3, none, none, false⟩),
          (⟨.fragment, 2, 0⟩, ⟨some 2, none, none, false⟩),
          (⟨.fragment, 2, 1⟩, ⟨none, some 2, none, false⟩)]
      ∧ (∀ kv ∈ L.binding_map, kv.1.stage = .vertex →
          kv.2.texture = none ∧ kv.2.sampler = none)
      ∧ L.push_constants.ps = none ∧ L.push_constants.cs = none := by
  exact ⟨_, rfl, rfl, rfl, rfl, by decide, rfl, rfl⟩

/-- C5: under the `Emulated` strategy, two declared bindings with identical
(binding id, array index, content) and disjoint stage masks collapse into a
single layout entry whose stage mask is the union of the two. -/
theorem C5_bindings_merge_with_stage_union (bind : Nat) (c : DescriptorContent)
    (s1 s2 : ShaderStageFlags) (h : s1.intersects s2 = false) :
    create_descriptor_set_layout
      [⟨bind, c, 1, s1, false⟩, ⟨bind, c, 1, s2, false⟩]
      = .ok (.emulated [⟨c, s1.union s2, bind, 0⟩]
          ((ResourceData.new.add_many c 1).add_many c 1)) := by
  have hrange : List.range 1 = [0] := rfl
  unfold create_descriptor_set_layout
  simp only [List.foldl_cons, List.foldl_nil, hrange, List.map_cons, List.map_nil,
    if_neg, List.nil_append, List.append_nil, List.cons_append]
  have hle : layoutKeyLe ⟨c, s1, bind, 0⟩ ⟨c, s2, bind, 0⟩ = true := by
    simp [layoutKeyLe, Nat.beq_eq, Nat.ble_eq]
  unfold List.mergeSort
  simp only [hle, if_true]
  simp [List.merge, hle, dedupMerge, dedupMergeGo]

/-- C5 witness: a concrete merge of a vertex-only and a fragment-only
uniform-buffer binding at binding id 2 into one vertex+fragment entry. -/
theorem C5_bindings_merge_witness :
    create_descriptor_set_layout
      [⟨2, uniformBufferContent, 1, ⟨true, false, false⟩, false⟩,
       ⟨2, uniformBufferContent, 1, ⟨false, true, false⟩, false⟩]
      = .ok (.emulated [⟨uniformBufferContent, ⟨true, true, false⟩, 2, 0⟩]
          ((ResourceData.new.add_many uniformBufferContent 1).add_many
            uniformBufferContent 1)) := by
  exact C5_bindings_merge_with_stage_union 2 uniformBufferContent
    ⟨true, false, false⟩ ⟨false, true, false⟩ (by decide)

/-- `find?` is unchanged by filtering with a predicate that holds wherever
the searched-for predicate does. -/
theorem find_filter_eq {α : Type} (q p : α → Bool) (h : ∀ c, q c = true → p c = true) :
    ∀ l : List α, (l.filter p).find? q = l.find? q := by
  intro l
  induction l with
  | nil => rfl
  | cons c rest ih =>
    by_cases hq : q c = true
    · simp [List.filter_cons, h c hq, List.find?_cons, hq]
    · by_cases hp : p c = true
      · simp only [List.filter_cons, hp, if_true]
        simp [List.find?_cons, hq, ih]
      · simp only [List.filter_cons, hp]
        simp [List.find?_cons, hq, ih, hp]

/-- Supplied constants whose id no declared constant carries never affect the
matching loop: filtering them away leaves every lookup unchanged. -/
theorem resolveConstants_filter (declared : List FunctionConstant)
    (constants : List SpecializationConstant) :
    ∀ l : List FunctionConstant, (∀ fc ∈ l, fc ∈ declared) →
    resolveConstants (constants.filter fun c => declared.any fun fc => Nat.beq fc.index c.id) l
      = resolveConstants constants l := by
  intro l
  induction l with
  | nil => intro _; rfl
  | cons fc rest ih =>
    intro hsub
    have hfind : (constants.filter fun c => declared.any fun fc2 => Nat.beq fc2.index c.id).find?
        (fun c => Nat.beq c.id fc.index) = constants.find? (fun c => Nat.beq c.id fc.index) := by
      apply find_filter_eq
      intro c hq
      have hfc : fc ∈ declared := hsub fc (List.mem_cons_self _ _)
      have hid : c.id = fc.index := by simpa [Nat.beq_eq] using hq
      simp only [List.any_eq_true]
      exact ⟨fc, hfc, by simp [Nat.beq_eq, hid]⟩
    have ihr := ih (fun x hx => hsub x (List.mem_cons_of_mem _ hx))
    simp only [resolveConstants, hfind, ihr]

/-- A declared required constant the caller did not supply makes the
matching loop fail with `MissingRequiredSpecialization`. -/
theorem resolveConstants_missing_required (constants : List SpecializationConstant) :
    ∀ (l : List FunctionConstant) (fc : FunctionConstant), fc ∈ l → fc.required = true →
    (∀ c ∈ constants, c.id ≠ fc.index) →
    resolveConstants constants l = .error .MissingRequiredSpecialization := by
  intro l
  induction l with
  | nil => intro fc h; cases h
  | cons fc0 rest ih =>
    intro fc hmem hreq hnone
    rcases List.mem_cons.mp hmem with h | h
    · subst h
      have hfind : constants.find? (fun c => Nat.beq c.id fc.index) = none := by
        apply List.find?_eq_none.mpr
        intro c hc
        simpa [Nat.beq_eq] using hnone c hc
      simp [resolveConstants, hfind, hreq]
    · simp only [resolveConstants]
      cases hfound : constants.find? (fun c => Nat.beq c.id fc0.index) with
      | some c => rw [ih fc h hreq hnone]
      | none =>
        by_cases hr : fc0.required = true
        · simp [hr]
        · simp only [Bool.not_eq_true] at hr
          simp [hr, ih fc h hreq hnone]

/-- C6: with specialization enabled, a constant the module marks required
that the caller did not supply is a hard `MissingRequiredSpecialization`
error, while supplied constants whose numeric id the module does not
declare are ignored without any effect on the result. -/
theorem C6_specialization_matching (declared : List FunctionConstant)
    (constants : List SpecializationConstant) :
    (∀ fc ∈ declared, fc.required = true → (∀ c ∈ constants, c.id ≠ fc.index) →
      get_final_function declared constants true = .error .MissingRequiredSpecialization)
    ∧ (∀ fs : Bool, get_final_function declared
        (constants.filter fun c => declared.any fun fc => Nat.beq fc.index c.id) fs
        = get_final_function declared constants fs) := by
  constructor
  · intro fc hmem hreq hnone
    have hlen : ¬ declared.length = 0 := by
      cases declared with
      | nil => cases hmem
      | cons a l => simp
    simp only [get_final_function, if_neg, hlen, ite_false]
    simp only [show (true = false) = False by simp, if_false]
    exact resolveConstants_missing_required constants declared fc hmem hreq hnone
  · intro fs
    cases fs with
    | false => rfl
    | true =>
      simp only [get_final_function]
      by_cases hlen : declared.length = 0
      · simp [hlen]
      · simp only [hlen, ite_false]
        simp only [show (true = false) = False by simp, if_false]
        rw [resolveConstants_filter declared constants declared (fun x hx => hx)]

/-- C6 witness: a module requiring constant 7 fails when only id 9 is
supplied, and the unmatched id-9 constant alone changes nothing for a module
declaring only an optional constant 3. -/
theorem C6_specialization_witness :
    get_final_function [⟨7, true⟩] [⟨9, 0⟩] true = .error .MissingRequiredSpecialization ∧
    get_final_function [⟨3, false⟩] ([].filter fun c =>
        [(⟨3, false⟩ : FunctionConstant)].any fun fc => Nat.beq fc.index c.id) true
      = get_final_function [⟨3, false⟩] [] true := by
  constructor
  · exact (C6_specialization_matching [⟨7, true⟩] [⟨9, 0⟩]).1 ⟨7, true⟩
      (by decide) rfl (by decide)
  · exact (C6_specialization_matching [⟨3, false⟩] []).2 true
/-- The per-stage component of the push-constant fold: the running maximum
of `range.end / 4` over the ranges including the stage. -/
theorem pcLimitsRaw_get (s : ShaderStage) (ranges : List (ShaderStageFlags × PushConstantRange)) :
    ∀ acc : MultiStageData Nat,
    (ranges.foldl
      (fun acc r =>
        (⟨if r.1.vertex then max (r.2.stop / 4) acc.vs else acc.vs,
          if r.1.fragment then max (r.2.stop / 4) acc.ps else acc.ps,
          if r.1.compute then max (r.2.stop / 4) acc.cs else acc.cs⟩ : MultiStageData Nat))
      acc).get s
    = max (acc.get s)
        (((ranges.filter (fun r => r.1.containsStage s)).map (fun r => r.2.stop)).foldr max 0 / 4) := by
  induction ranges with
  | nil => intro acc; simp
  | cons r rs ih =>
    intro acc
    simp only [List.foldl_cons, List.filter_cons]
    rw [ih]
    have hget : ∀ acc2 : MultiStageData Nat,
        ((⟨if r.1.vertex then max (r.2.stop / 4) acc2.vs else acc2.vs,
           if r.1.fragment then max (r.2.stop / 4) acc2.ps else acc2.ps,
           if r.1.compute then max (r.2.stop / 4) acc2.cs else acc2.cs⟩ : MultiStageData Nat)).get s
        = if r.1.containsStage s then max (r.2.stop / 4) (acc2.get s) else acc2.get s := by
      intro acc2
      cases s <;> simp [MultiStageData.get, ShaderStageFlags.containsStage]
    rw [hget]
    by_cases hc : r.1.containsStage s = true
    · simp only [hc, if_true, List.map_cons, List.foldr_cons]
      omega
    · simp only [Bool.not_eq_true] at hc
      simp only [hc, Bool.false_eq_true, if_false]

/-- The rounded per-stage word limit equals the spec's formula. -/
theorem pcLimits_get_eq_spec (ranges : List (ShaderStageFlags × PushConstantRange))
    (s : ShaderStage) :
    (pcLimits ranges).get s = spec_push_constant_words ranges s := by
  have hround : (pcLimits ranges).get s = roundPcLimit ((pcLimitsRaw ranges).get s) := by
    cases s <;> rfl
  have h := pcLimitsRaw_get s ranges ⟨0, 0, 0⟩
  have hz : ((⟨0, 0, 0⟩ : MultiStageData Nat)).get s = 0 := by cases s <;> rfl
  rw [hround]
  unfold pcLimitsRaw
  rw [h, hz]
  simp [spec_push_constant_words]

/-- The per-stage slot allocation never touches the push-constant slot. -/
theorem pcb_processLayoutStage (i : Nat) (l : DescriptorLayout) (st : PLState)
    (s s' : ShaderStage) :
    ((processLayoutStage i l st s).getInfo s').push_constant_buffer
      = (st.getInfo s').push_constant_buffer := by
  cases s <;> cases s' <;>
    simp [processLayoutStage, PLState.getInfo, PLState.setInfo] <;>
    split_ifs <;> rfl

/-- Sized-binding bookkeeping never touches the push-constant slot. -/
theorem pcb_bumpSizesCount (st : PLState) (f : ShaderStageFlags) (s' : ShaderStage) :
    ((bumpSizesCount st f).getInfo s').push_constant_buffer
      = (st.getInfo s').push_constant_buffer := by
  cases s' <;> simp [bumpSizesCount, PLState.getInfo] <;> split_ifs <;> rfl

/-- One layout entry never touches a stage's push-constant slot. -/
theorem pcb_processSetLayoutEntry (i : Nat)
    (acc : PLState × List (MultiStageData Nat) × List (Nat × ShaderStageFlags))
    (l : DescriptorLayout) (s' : ShaderStage) :
    (((processSetLayoutEntry i acc l).1).getInfo s').push_constant_buffer
      = ((acc.1).getInfo s').push_constant_buffer := by
  unfold processSetLayoutEntry
  simp only [stageList, List.foldl_cons, List.foldl_nil]
  rw [pcb_processLayoutStage, pcb_processLayoutStage, pcb_processLayoutStage]
  by_cases hs : l.content.sized_buffer = true
  · simp [hs, pcb_bumpSizesCount]
  · simp [hs]

/-- A whole emulated layout list never touches the push-constant slot. -/
theorem pcb_foldl_entries (i : Nat) (s' : ShaderStage) :
    ∀ (ls : List DescriptorLayout)
      (acc : PLState × List (MultiStageData Nat) × List (Nat × ShaderStageFlags)),
    (((ls.foldl (processSetLayoutEntry i) acc).1).getInfo s').push_constant_buffer
      = ((acc.1).getInfo s').push_constant_buffer := by
  intro ls
  induction ls with
  | nil => intro acc; rfl
  | cons l rest ih =>
    intro acc
    simp only [List.foldl_cons]
    rw [ih, pcb_processSetLayoutEntry]

/-- `processArgStage` never touches a stage's push-constant slot. -/
theorem pcb_processArgStage (i : Nat) (f : ShaderStageFlags) (st : PLState)
    (s s' : ShaderStage) :
    ((processArgStage i f st s).getInfo s').push_constant_buffer
      = (st.getInfo s').push_constant_buffer := by
  cases s <;> cases s' <;>
    simp [processArgStage, PLState.getInfo, PLState.setInfo] <;>
    split_ifs <;> rfl

/-- One descriptor set never touches a stage's push-constant slot. -/
theorem pcb_processSet (i : Nat) (sl : DescriptorSetLayout) (st : PLState) (s' : ShaderStage) :
    (((processSet i sl st).1).getInfo s').push_constant_buffer
      = (st.getInfo s').push_constant_buffer := by
  cases sl with
  | emulated ls total =>
      simp only [processSet]
      rw [pcb_foldl_entries]
  | argument_buffer f =>
      simp only [processSet, stageList, List.foldl_cons, List.foldl_nil]
      rw [pcb_processArgStage, pcb_processArgStage, pcb_processArgStage]

/-- The descriptor-set phase never touches a stage's push-constant slot. -/
theorem pcb_processSets (s' : ShaderStage) :
    ∀ (sets : List DescriptorSetLayout) (i : Nat) (st : PLState),
    (((processSets sets i st).1).getInfo s').push_constant_buffer
      = (st.getInfo s').push_constant_buffer := by
  intro sets
  induction sets with
  | nil => intro i st; rfl
  | cons sl rest ih =>
    intro i st
    simp only [processSets]
    rw [ih, pcb_processSet]

/-- A stage accepted by the final check keeps its push-constant slot and has
all three counters within the device limits. -/
theorem finalizeStage_ok_facts (caps : PrivateCaps) (i j : StageInfo)
    (h : finalizeStage caps i = .ok j) :
    j.push_constant_buffer = i.push_constant_buffer ∧
    j.counters.buffers ≤ caps.max_buffers_per_stage ∧
    j.counters.textures ≤ caps.max_textures_per_stage ∧
    j.counters.samplers ≤ caps.max_samplers_per_stage := by
  unfold finalizeStage at h
  by_cases h1 : i.sizes_count ≠ 0 <;>
    simp only [h1, ite_true, ite_false, if_pos, if_neg, not_true, not_false_iff] at h <;>
    split_ifs at h with h2 <;>
    simp only [Except.ok.injEq] at h <;>
    subst h <;>
    (try dsimp only at h2) <;>
    simp only [Bool.or_eq_true, decide_eq_true_eq, not_or] at h2 <;>
    refine ⟨rfl, ?_, ?_, ?_⟩ <;> (try dsimp only) <;> omega

/-- The final check fails only with `OutOfMemory::Host`. -/
theorem finalizeStage_error_host (caps : PrivateCaps) (i : StageInfo) (e : OutOfMemory)
    (h : finalizeStage caps i = .error e) : e = .Host := by
  unfold finalizeStage at h
  by_cases h1 : i.sizes_count ≠ 0 <;>
    simp only [h1, ite_true, ite_false, not_true, not_false_iff] at h <;>
    split_ifs at h with h2 <;>
    (simp only [Except.error.injEq] at h; exact h.symm)

/-- Destructuring a successful `create_pipeline_layout`: all three stages
passed the final check and the layout is the assembled record. -/
theorem create_ok_cases (caps : PrivateCaps) (sets : List DescriptorSetLayout)
    (ranges : List (ShaderStageFlags × PushConstantRange)) (layout : PipelineLayout)
    (hok : create_pipeline_layout caps sets ranges = .ok layout) :
    ∃ vsInfo psInfo csInfo,
      finalizeStage caps (processSets sets 0 (initialState ranges)).1.vs = .ok vsInfo ∧
      finalizeStage caps (processSets sets 0 (initialState ranges)).1.ps = .ok psInfo ∧
      finalizeStage caps (processSets sets 0 (initialState ranges)).1.cs = .ok csInfo ∧
      layout = { binding_map := (processSets sets 0 (initialState ranges)).1.binding_map
                 inline_samplers := (processSets sets 0 (initialState ranges)).1.inline_samplers
                 per_stage_push_constant_buffer :=
                   ⟨vsInfo.push_constant_buffer, psInfo.push_constant_buffer,
                    csInfo.push_constant_buffer⟩
                 per_stage_sizes_buffer :=
                   ⟨vsInfo.sizes_buffer, psInfo.sizes_buffer, csInfo.sizes_buffer⟩
                 infos := (processSets sets 0 (initialState ranges)).2
                 total := ⟨vsInfo.counters, psInfo.counters, csInfo.counters⟩
                 push_constants :=
                   ⟨vsInfo.push_constant_buffer.map (fun bi => ⟨(pcLimits ranges).vs, bi⟩),
                    psInfo.push_constant_buffer.map (fun bi => ⟨(pcLimits ranges).ps, bi⟩),
                    csInfo.push_constant_buffer.map (fun bi => ⟨(pcLimits ranges).cs, bi⟩)⟩
                 total_push_constants :=
                   max (max (pcLimits ranges).vs (pcLimits ranges).ps) (pcLimits ranges).cs } := by
  unfold create_pipeline_layout at hok
  dsimp only at hok
  cases hv : finalizeStage caps (processSets sets 0 (initialState ranges)).1.vs with
  | error e => rw [hv] at hok; cases hok
  | ok vsInfo =>
    rw [hv] at hok
    cases hp : finalizeStage caps (processSets sets 0 (initialState ranges)).1.ps with
    | error e => rw [hp] at hok; cases hok
    | ok psInfo =>
      rw [hp] at hok
      cases hc : finalizeStage caps (processSets sets 0 (initialState ranges)).1.cs with
      | error e => rw [hc] at hok; cases hok
      | ok csInfo =>
        rw [hc] at hok
        simp only [Except.ok.injEq] at hok
        exact ⟨vsInfo, psInfo, csInfo, rfl, rfl, rfl, hok.symm⟩

/-- A failed `create_pipeline_layout` reports `OutOfMemory::Host`. -/
theorem create_error_host (caps : PrivateCaps) (sets : List DescriptorSetLayout)
    (ranges : List (ShaderStageFlags × PushConstantRange)) (e : OutOfMemory)
    (herr : create_pipeline_layout caps sets ranges = .error e) : e = .Host := by
  unfold create_pipeline_layout at herr
  dsimp only at herr
  cases hv : finalizeStage caps (processSets sets 0 (initialState ranges)).1.vs with
  | error e1 =>
    rw [hv] at herr
    simp only [Except.error.injEq] at herr
    subst herr
    exact finalizeStage_error_host _ _ _ hv
  | ok vsInfo =>
    rw [hv] at herr
    cases hp : finalizeStage caps (processSets sets 0 (initialState ranges)).1.ps with
    | error e1 =>
      rw [hp] at herr
      simp only [Except.error.injEq] at herr
      subst herr
      exact finalizeStage_error_host _ _ _ hp
    | ok psInfo =>
      rw [hp] at herr
      cases hc : finalizeStage caps (processSets sets 0 (initialState ranges)).1.cs with
      | error e1 =>
        rw [hc] at herr
        simp only [Except.error.injEq] at herr
        subst herr
        exact finalizeStage_error_host _ _ _ hc
      | ok csInfo => rw [hc] at herr; cases herr

/-- Push-constant reservation on a fresh stage takes buffer slot 0 exactly
when the word limit is nonzero. -/
theorem assignPushConstant_new_pcb (limit : Nat) (s : ShaderStage) :
    (assignPushConstant limit (StageInfo.new s)).push_constant_buffer
      = (if limit = 0 then none else some 0) := by
  unfold assignPushConstant StageInfo.new
  split_ifs with h1 h2 <;> first | rfl | omega

/-- The initial state's push-constant slot per stage. -/
theorem initialState_pcb (ranges : List (ShaderStageFlags × PushConstantRange))
    (s : ShaderStage) :
    ((initialState ranges).getInfo s).push_constant_buffer
      = (if (pcLimits ranges).get s = 0 then none else some 0) := by
  cases s <;>
    simp only [initialState, PLState.getInfo, MultiStageData.get] <;>
    exact assignPushConstant_new_pcb _ _

/-- C4 (amended): for every stage, the recorded push-constant word count is
the maximum referenced byte offset among ranges including the stage,
converted to 4-byte words and rounded up to a 4-word boundary only when
above three words (counts of 1-3 words stay as they are); a stage with a
nonzero count reserves buffer slot 0 for push constants before any other
allocation. -/
theorem C4_push_constant_words_amended (caps : PrivateCaps) (sets : List DescriptorSetLayout)
    (ranges : List (ShaderStageFlags × PushConstantRange)) (layout : PipelineLayout)
    (hok : create_pipeline_layout caps sets ranges = .ok layout) (s : ShaderStage) :
    layout.push_constants.get s =
      (if spec_push_constant_words ranges s = 0 then none
       else some ⟨spec_push_constant_words ranges s, 0⟩) ∧
    layout.per_stage_push_constant_buffer.get s =
      (if spec_push_constant_words ranges s = 0 then none else some 0) := by
  obtain ⟨vsInfo, psInfo, csInfo, hv, hp, hc, hlay⟩ := create_ok_cases caps sets ranges layout hok
  subst hlay
  have hpres := pcb_processSets s sets 0 (initialState ranges)
  have hinit := initialState_pcb ranges s
  have hspec := pcLimits_get_eq_spec ranges s
  cases s with
  | vertex =>
    have hspec2 : (pcLimits ranges).vs = spec_push_constant_words ranges .vertex := hspec
    have h1 : vsInfo.push_constant_buffer
        = (processSets sets 0 (initialState ranges)).1.vs.push_constant_buffer :=
      (finalizeStage_ok_facts caps _ _ hv).1
    have h2 : (processSets sets 0 (initialState ranges)).1.vs.push_constant_buffer
        = (if (pcLimits ranges).vs = 0 then none else some 0) := by
      have h3 := hpres
      simp only [PLState.getInfo] at h3
      rw [h3]
      exact hinit
    rw [← hspec2]
    constructor
    · show vsInfo.push_constant_buffer.map
          (fun bi => (⟨(pcLimits ranges).vs, bi⟩ : PushConstantInfo)) = _
      rw [h1, h2]
      by_cases hz : (pcLimits ranges).vs = 0 <;> simp [hz]
    · show vsInfo.push_constant_buffer = _
      rw [h1, h2]
  | fragment =>
    have hspec2 : (pcLimits ranges).ps = spec_push_constant_words ranges .fragment := hspec
    have h1 : psInfo.push_constant_buffer
        = (processSets sets 0 (initialState ranges)).1.ps.push_constant_buffer :=
      (finalizeStage_ok_facts caps _ _ hp).1
    have h2 : (processSets sets 0 (initialState ranges)).1.ps.push_constant_buffer
        = (if (pcLimits ranges).ps = 0 then none else some 0) := by
      have h3 := hpres
      simp only [PLState.getInfo] at h3
      rw [h3]
      exact hinit
    rw [← hspec2]
    constructor
    · show psInfo.push_constant_buffer.map
          (fun bi => (⟨(pcLimits ranges).ps, bi⟩ : PushConstantInfo)) = _
      rw [h1, h2]
      by_cases hz : (pcLimits ranges).ps = 0 <;> simp [hz]
    · show psInfo.push_constant_buffer = _
      rw [h1, h2]
  | compute =>
    have hspec2 : (pcLimits ranges).cs = spec_push_constant_words ranges .compute := hspec
    have h1 : csInfo.push_constant_buffer
        = (processSets sets 0 (initialState ranges)).1.cs.push_constant_buffer :=
      (finalizeStage_ok_facts caps _ _ hc).1
    have h2 : (processSets sets 0 (initialState ranges)).1.cs.push_constant_buffer
        = (if (pcLimits ranges).cs = 0 then none else some 0) := by
      have h3 := hpres
      simp only [PLState.getInfo] at h3
      rw [h3]
      exact hinit
    rw [← hspec2]
    constructor
    · show csInfo.push_constant_buffer.map
          (fun bi => (⟨(pcLimits ranges).cs, bi⟩ : PushConstantInfo)) = _
      rw [h1, h2]
      by_cases hz : (pcLimits ranges).cs = 0 <;> simp [hz]
    · show csInfo.push_constant_buffer = _
      rw [h1, h2]

/-- C2: `create_pipeline_layout` returns a layout only when every stage's
final buffer, texture and sampler counters (with the reserved push-constant
and sizes-buffer slots) are within the declared per-stage limits, and on
overflow it returns the single out-of-memory-class error `Host` with no
layout — no partial structure is observable. -/
theorem C2_stage_limits_enforced (caps : PrivateCaps) (sets : List DescriptorSetLayout)
    (ranges : List (ShaderStageFlags × PushConstantRange)) :
    (∀ layout, create_pipeline_layout caps sets ranges = .ok layout →
      layout.total.vs.buffers ≤ caps.max_buffers_per_stage ∧
      layout.total.vs.textures ≤ caps.max_textures_per_stage ∧
      layout.total.vs.samplers ≤ caps.max_samplers_per_stage ∧
      layout.total.ps.buffers ≤ caps.max_buffers_per_stage ∧
      layout.total.ps.textures ≤ caps.max_textures_per_stage ∧
      layout.total.ps.samplers ≤ caps.max_samplers_per_stage ∧
      layout.total.cs.buffers ≤ caps.max_buffers_per_stage ∧
      layout.total.cs.textures ≤ caps.max_textures_per_stage ∧
      layout.total.cs.samplers ≤ caps.max_samplers_per_stage) ∧
    (∀ e, create_pipeline_layout caps sets ranges = .error e → e = .Host) := by
  constructor
  · intro layout hok
    obtain ⟨vsInfo, psInfo, csInfo, hv, hp, hc, hlay⟩ :=
      create_ok_cases caps sets ranges layout hok
    subst hlay
    obtain ⟨-, hb1, ht1, hs1⟩ := finalizeStage_ok_facts caps _ _ hv
    obtain ⟨-, hb2, ht2, hs2⟩ := finalizeStage_ok_facts caps _ _ hp
    obtain ⟨-, hb3, ht3, hs3⟩ := finalizeStage_ok_facts caps _ _ hc
    exact ⟨hb1, ht1, hs1, hb2, ht2, hs2, hb3, ht3, hs3⟩
  · intro e herr
    exact create_error_host caps sets ranges e herr

/-- Membership after a `BTreeMap` insert: an old entry or the new pair. -/
theorem bmInsert_mem {k : BindSource} {v : BindTarget} :
    ∀ {m : List (BindSource × BindTarget)} {kv : BindSource × BindTarget},
    kv ∈ bmInsert m k v → kv ∈ m ∨ kv = (k, v) := by
  intro m
  induction m with
  | nil =>
    intro kv h
    simp only [bmInsert, List.mem_singleton] at h
    exact Or.inr h
  | cons p rest ih =>
    intro kv h
    obtain ⟨k1, v1⟩ := p
    by_cases hk : k1 = k
    · simp only [bmInsert, hk, if_true, List.mem_cons] at h
      rcases h with h | h
      · exact Or.inr h
      · exact Or.inl (List.mem_cons_of_mem _ h)
    · simp only [bmInsert, hk, if_false, List.mem_cons] at h
      rcases h with h | h
      · exact Or.inl (by simp [h])
      · rcases ih h with h2 | h2
        · exact Or.inl (List.mem_cons_of_mem _ h2)
        · exact Or.inr h2

/-- Bumping the inline-sampler pool leaves every stage info unchanged. -/
theorem getInfo_inline (st : PLState) (n : Nat) (s' : ShaderStage) :
    ({ st with inline_samplers := n } : PLState).getInfo s' = st.getInfo s' := by
  cases s' <;> rfl

/-- Bumping the inline-sampler pool leaves the binding map unchanged. -/
theorem bmap_inline (st : PLState) (n : Nat) :
    ({ st with inline_samplers := n } : PLState).binding_map = st.binding_map := rfl

/-- Replacing the binding map leaves every stage info unchanged. -/
theorem getInfo_bmap (st : PLState) (m : List (BindSource × BindTarget)) (s' : ShaderStage) :
    ({ st with binding_map := m } : PLState).getInfo s' = st.getInfo s' := by
  cases s' <;> rfl

/-- Reading a stage info after writing one. -/
theorem getInfo_setInfo (st : PLState) (s s' : ShaderStage) (i : StageInfo) :
    (st.setInfo s i).getInfo s' = if s' = s then i else st.getInfo s' := by
  cases s <;> cases s' <;> simp [PLState.setInfo, PLState.getInfo]

/-- Writing a stage info leaves the binding map unchanged. -/
theorem bmap_setInfo (st : PLState) (s : ShaderStage) (i : StageInfo) :
    (st.setInfo s i).binding_map = st.binding_map := by
  cases s <;> rfl

/-- Inserting a fresh in-bounds target whose slots collide with no existing
entry preserves both slot invariants. -/
theorem insert_step_inv (cat : BindTarget → Option Nat) (cnt : ResourceData → Nat)
    (st2 : PLState) (k : BindSource) (v : BindTarget)
    (hB2 : SlotBound cat cnt st2) (hD2 : SlotsDistinct cat st2.binding_map)
    (hbound : ∀ x, cat v = some x → x < cnt ((st2.getInfo k.stage).counters))
    (hfresh : ∀ x, cat v = some x → ∀ kv ∈ st2.binding_map, kv.1.stage = k.stage →
      ∀ y, cat kv.2 = some y → y ≠ x) :
    SlotBound cat cnt ({ st2 with binding_map := bmInsert st2.binding_map k v } : PLState) ∧
    SlotsDistinct cat (bmInsert st2.binding_map k v) := by
  constructor
  · intro kv hkv x hx
    rw [getInfo_bmap]
    simp only at hkv
    rcases bmInsert_mem hkv with h | h
    · exact hB2 kv h x hx
    · subst h
      exact hbound x hx
  · intro kv1 h1 kv2 h2 hne hstage x1 x2 hx1 hx2
    rcases bmInsert_mem h1 with h1m | h1m <;> rcases bmInsert_mem h2 with h2m | h2m
    · exact hD2 kv1 h1m kv2 h2m hne hstage x1 x2 hx1 hx2
    · subst h2m
      have hs1 : kv1.1.stage = k.stage := hstage
      exact fun he => (hfresh x2 hx2 kv1 h1m hs1 x1 hx1) he
    · subst h1m
      have hs2 : kv2.1.stage = k.stage := hstage.symm
      exact fun he => (hfresh x1 hx1 kv2 h2m hs2 x2 hx2) he.symm
    · subst h1m; subst h2m; exact absurd rfl hne

/-- Bumping one stage's counters by a content only loosens the slot bound. -/
theorem setInfo_add_bound (cat : BindTarget → Option Nat) (cnt : ResourceData → Nat)
    (hMono : ∀ counters content, cnt counters ≤ cnt (ResourceData.add counters content))
    (st stb : PLState) (s : ShaderStage) (l : DescriptorLayout)
    (hb : stb.binding_map = st.binding_map)
    (hg : ∀ s', stb.getInfo s' = st.getInfo s')
    (hB : SlotBound cat cnt st) :
    SlotBound cat cnt
      (stb.setInfo s { st.getInfo s with counters := (st.getInfo s).counters.add l.content }) := by
  intro kv hkv x hx
  rw [bmap_setInfo, hb] at hkv
  rw [getInfo_setInfo]
  by_cases hst : kv.1.stage = s
  · rw [if_pos hst]
    have h1 := hB kv hkv x hx
    rw [hst] at h1
    calc x < cnt (st.getInfo s).counters := h1
      _ ≤ _ := hMono _ _
  · rw [if_neg hst, hg]
    exact hB kv hkv x hx

/-- The per-stage allocation step preserves boundedness and distinctness of
the recorded slots, for any category whose target slot is taken at the
category's counter and whose counter then strictly increases. -/
theorem step_inv (cat : BindTarget → Option Nat) (cnt : ResourceData → Nat)
    (hT : ∀ (l : DescriptorLayout) (counters : ResourceData) (inline_handle : Nat),
          ∀ x, cat (mkTarget l counters inline_handle) = some x →
          x = cnt counters ∧ cnt counters + 1 ≤ cnt (counters.add l.content))
    (hMono : ∀ counters content, cnt counters ≤ cnt (ResourceData.add counters content))
    (i : Nat) (l : DescriptorLayout) (st : PLState) (s : ShaderStage)
    (hB : SlotBound cat cnt st) (hD : SlotsDistinct cat st.binding_map) :
    SlotBound cat cnt (processLayoutStage i l st s) ∧
    SlotsDistinct cat (processLayoutStage i l st s).binding_map := by
  by_cases hc : l.stages.containsStage s = false
  · unfold processLayoutStage
    simp only [hc, if_pos]
    exact ⟨hB, hD⟩
  · have hc2 : l.stages.containsStage s = true := by
      revert hc
      cases l.stages.containsStage s <;> simp
    unfold processLayoutStage
    rw [hc2]
    simp only [Bool.true_eq_false, if_false]
    by_cases him : l.content.immutable_sampler = true <;>
      simp only [him, if_true, if_false, Bool.false_eq_true]
    case pos =>
      by_cases ha : l.array_index = 0 <;> simp only [ha, if_true, if_false]
      case pos =>
        apply insert_step_inv
        · exact setInfo_add_bound cat cnt hMono st _ s l (bmap_inline st _)
            (getInfo_inline st _) hB
        · rw [bmap_setInfo, bmap_inline]
          exact hD
        · intro x hx
          obtain ⟨hx1, hx2⟩ := hT l (st.getInfo s).counters st.inline_samplers x hx
          rw [getInfo_setInfo]
          simp only [eq_self_iff_true, if_true]
          omega
        · intro x hx kv hkv hstage y hy
          rw [bmap_setInfo, bmap_inline] at hkv
          obtain ⟨hx1, hx2⟩ := hT l (st.getInfo s).counters st.inline_samplers x hx
          have h3 := hB kv hkv y hy
          rw [hstage] at h3
          dsimp only at h3
          omega
      case neg =>
        constructor
        · exact setInfo_add_bound cat cnt hMono st _ s l (bmap_inline st _)
            (getInfo_inline st _) hB
        · rw [bmap_setInfo, bmap_inline]
          exact hD
    case neg =>
      by_cases ha : l.array_index = 0 <;> simp only [ha, if_true, if_false]
      case pos =>
        apply insert_step_inv
        · exact setInfo_add_bound cat cnt hMono st st s l rfl (fun _ => rfl) hB
        · rw [bmap_setInfo]
          exact hD
        · intro x hx
          obtain ⟨hx1, hx2⟩ := hT l (st.getInfo s).counters st.inline_samplers x hx
          rw [getInfo_setInfo]
          simp only [eq_self_iff_true, if_true]
          omega
        · intro x hx kv hkv hstage y hy
          rw [bmap_setInfo] at hkv
          obtain ⟨hx1, hx2⟩ := hT l (st.getInfo s).counters st.inline_samplers x hx
          have h3 := hB kv hkv y hy
          rw [hstage] at h3
          dsimp only at h3
          omega
      case neg =>
        constructor
        · exact setInfo_add_bound cat cnt hMono st st s l rfl (fun _ => rfl) hB
        · rw [bmap_setInfo]
          exact hD

/-- Sized-binding bookkeeping leaves the binding map unchanged. -/
theorem bmap_bumpSizes (st : PLState) (f : ShaderStageFlags) :
    (bumpSizesCount st f).binding_map = st.binding_map := by
  unfold bumpSizesCount
  split_ifs <;> rfl

/-- Sized-binding bookkeeping leaves every counter unchanged. -/
theorem counters_bumpSizes (st : PLState) (f : ShaderStageFlags) (s' : ShaderStage) :
    ((bumpSizesCount st f).getInfo s').counters = (st.getInfo s').counters := by
  unfold bumpSizesCount
  split_ifs <;> cases s' <;> rfl

/-- The slot bound transfers across states with equal maps and counters. -/
theorem slotBound_congr (cat : BindTarget → Option Nat) (cnt : ResourceData → Nat)
    (st st' : PLState) (hm : st'.binding_map = st.binding_map)
    (hc : ∀ s', (st'.getInfo s').counters = (st.getInfo s').counters)
    (h : SlotBound cat cnt st) : SlotBound cat cnt st' := by
  intro kv hkv x hx
  rw [hc]
  exact h kv (hm ▸ hkv) x hx

/-- One emulated layout entry preserves the slot invariants. -/
theorem entry_inv (cat : BindTarget → Option Nat) (cnt : ResourceData → Nat)
    (hT : ∀ (l : DescriptorLayout) (counters : ResourceData) (inline_handle : Nat),
          ∀ x, cat (mkTarget l counters inline_handle) = some x →
          x = cnt counters ∧ cnt counters + 1 ≤ cnt (counters.add l.content))
    (hMono : ∀ counters content, cnt counters ≤ cnt (ResourceData.add counters content))
    (i : Nat) (acc : PLState × List (MultiStageData Nat) × List (Nat × ShaderStageFlags))
    (l : DescriptorLayout)
    (hB : SlotBound cat cnt acc.1) (hD : SlotsDistinct cat acc.1.binding_map) :
    SlotBound cat cnt (processSetLayoutEntry i acc l).1 ∧
    SlotsDistinct cat ((processSetLayoutEntry i acc l).1).binding_map := by
  unfold processSetLayoutEntry
  dsimp only
  simp only [stageList, List.foldl_cons, List.foldl_nil]
  have hst0 : SlotBound cat cnt
        (if l.content.sized_buffer then bumpSizesCount acc.1 l.stages else acc.1) ∧
      SlotsDistinct cat
        ((if l.content.sized_buffer then bumpSizesCount acc.1 l.stages else acc.1)).binding_map := by
    split_ifs with hs
    · exact ⟨slotBound_congr cat cnt acc.1 _ (bmap_bumpSizes _ _)
        (counters_bumpSizes _ _) hB, (bmap_bumpSizes _ _).symm ▸ hD⟩
    · exact ⟨hB, hD⟩
  have h1 := step_inv cat cnt hT hMono i l _ ShaderStage.vertex hst0.1 hst0.2
  have h2 := step_inv cat cnt hT hMono i l _ ShaderStage.fragment h1.1 h1.2
  exact step_inv cat cnt hT hMono i l _ ShaderStage.compute h2.1 h2.2


/-- One argument-buffer stage step preserves the slot invariants. -/
theorem argStage_inv (cat : BindTarget → Option Nat) (cnt : ResourceData → Nat)
    (hBuf : ∀ counters : ResourceData,
      cnt counters ≤ cnt { counters with buffers := counters.buffers + 1 })
    (i : Nat) (f : ShaderStageFlags) (st : PLState) (s : ShaderStage)
    (hB : SlotBound cat cnt st) (hD : SlotsDistinct cat st.binding_map) :
    SlotBound cat cnt (processArgStage i f st s) ∧
    SlotsDistinct cat (processArgStage i f st s).binding_map := by
  unfold processArgStage
  split_ifs with hc
  · exact ⟨hB, hD⟩
  · dsimp only
    constructor
    · intro kv hkv x hx
      rw [bmap_setInfo] at hkv
      rw [getInfo_setInfo]
      by_cases hst : kv.1.stage = s
      · rw [if_pos hst]
        have h1 := hB kv hkv x hx
        rw [hst] at h1
        dsimp only
        exact lt_of_lt_of_le h1 (hBuf _)
      · rw [if_neg hst]
        exact hB kv hkv x hx
    · rw [bmap_setInfo]
      exact hD

/-- A whole emulated layout list preserves the slot invariants. -/
theorem fold_entries_inv (cat : BindTarget → Option Nat) (cnt : ResourceData → Nat)
    (hT : ∀ (l : DescriptorLayout) (counters : ResourceData) (inline_handle : Nat),
          ∀ x, cat (mkTarget l counters inline_handle) = some x →
          x = cnt counters ∧ cnt counters + 1 ≤ cnt (counters.add l.content))
    (hMono : ∀ counters content, cnt counters ≤ cnt (ResourceData.add counters content))
    (i : Nat) :
    ∀ (ls : List DescriptorLayout)
      (acc : PLState × List (MultiStageData Nat) × List (Nat × ShaderStageFlags)),
    SlotBound cat cnt acc.1 → SlotsDistinct cat acc.1.binding_map →
    SlotBound cat cnt ((ls.foldl (processSetLayoutEntry i) acc).1) ∧
    SlotsDistinct cat (((ls.foldl (processSetLayoutEntry i) acc).1)).binding_map := by
  intro ls
  induction ls with
  | nil => intro acc hB hD; exact ⟨hB, hD⟩
  | cons l rest ih =>
    intro acc hB hD
    simp only [List.foldl_cons]
    have h := entry_inv cat cnt hT hMono i acc l hB hD
    exact ih _ h.1 h.2

/-- One descriptor set preserves the slot invariants. -/
theorem processSet_inv (cat : BindTarget → Option Nat) (cnt : ResourceData → Nat)
    (hT : ∀ (l : DescriptorLayout) (counters : ResourceData) (inline_handle : Nat),
          ∀ x, cat (mkTarget l counters inline_handle) = some x →
          x = cnt counters ∧ cnt counters + 1 ≤ cnt (counters.add l.content))
    (hMono : ∀ counters content, cnt counters ≤ cnt (ResourceData.add counters content))
    (hBuf : ∀ counters : ResourceData,
      cnt counters ≤ cnt { counters with buffers := counters.buffers + 1 })
    (i : Nat) (sl : DescriptorSetLayout) (st : PLState)
    (hB : SlotBound cat cnt st) (hD : SlotsDistinct cat st.binding_map) :
    SlotBound cat cnt (processSet i sl st).1 ∧
    SlotsDistinct cat ((processSet i sl st).1).binding_map := by
  cases sl with
  | emulated ls total =>
    simp only [processSet]
    exact fold_entries_inv cat cnt hT hMono i ls (st, [], []) hB hD
  | argument_buffer f =>
    simp only [processSet, stageList, List.foldl_cons, List.foldl_nil]
    have h1 := argStage_inv cat cnt hBuf i f st ShaderStage.vertex hB hD
    have h2 := argStage_inv cat cnt hBuf i f _ ShaderStage.fragment h1.1 h1.2
    exact argStage_inv cat cnt hBuf i f _ ShaderStage.compute h2.1 h2.2

/-- The descriptor-set phase preserves the slot invariants. -/
theorem processSets_inv (cat : BindTarget → Option Nat) (cnt : ResourceData → Nat)
    (hT : ∀ (l : DescriptorLayout) (counters : ResourceData) (inline_handle : Nat),
          ∀ x, cat (mkTarget l counters inline_handle) = some x →
          x = cnt counters ∧ cnt counters + 1 ≤ cnt (counters.add l.content))
    (hMono : ∀ counters content, cnt counters ≤ cnt (ResourceData.add counters content))
    (hBuf : ∀ counters : ResourceData,
      cnt counters ≤ cnt { counters with buffers := counters.buffers + 1 }) :
    ∀ (sets : List DescriptorSetLayout) (i : Nat) (st : PLState),
    SlotBound cat cnt st → SlotsDistinct cat st.binding_map →
    SlotBound cat cnt (processSets sets i st).1 ∧
    SlotsDistinct cat ((processSets sets i st).1).binding_map := by
  intro sets
  induction sets with
  | nil => intro i st hB hD; exact ⟨hB, hD⟩
  | cons sl rest ih =>
    intro i st hB hD
    simp only [processSets]
    have h := processSet_inv cat cnt hT hMono hBuf i sl st hB hD
    exact ih (i + 1) _ h.1 h.2

/-- Buffer category: a target's buffer slot is the current buffer counter,
which the subsequent bump strictly increases. -/
theorem catBuffer_target_facts :
    ∀ (l : DescriptorLayout) (counters : ResourceData) (inline_handle : Nat),
    ∀ x, (mkTarget l counters inline_handle).buffer = some x →
    x = counters.buffers ∧ counters.buffers + 1 ≤ (counters.add l.content).buffers := by
  intro l counters ih x hx
  by_cases hb : l.content.buffer = true <;>
    simp only [mkTarget, hb, if_true, if_false, Bool.false_eq_true, Option.some.injEq] at hx
  · subst hx
    simp [ResourceData.add, ResourceData.add_many, hb]
  · cases hx

/-- The buffer counter never decreases under `add`. -/
theorem catBuffer_mono : ∀ (counters : ResourceData) (content : DescriptorContent),
    counters.buffers ≤ (ResourceData.add counters content).buffers := by
  intro counters content
  simp only [ResourceData.add, ResourceData.add_many]
  omega

/-- Texture category: a target's texture slot is the current texture
counter, which the subsequent bump strictly increases. -/
theorem catTexture_target_facts :
    ∀ (l : DescriptorLayout) (counters : ResourceData) (inline_handle : Nat),
    ∀ x, (mkTarget l counters inline_handle).texture = some x →
    x = counters.textures ∧ counters.textures + 1 ≤ (counters.add l.content).textures := by
  intro l counters ih x hx
  by_cases hb : l.content.texture = true <;>
    simp only [mkTarget, hb, if_true, if_false, Bool.false_eq_true, Option.some.injEq] at hx
  · subst hx
    simp [ResourceData.add, ResourceData.add_many, hb]
  · cases hx

/-- The texture counter never decreases under `add`. -/
theorem catTexture_mono : ∀ (counters : ResourceData) (content : DescriptorContent),
    counters.textures ≤ (ResourceData.add counters content).textures := by
  intro counters content
  simp only [ResourceData.add, ResourceData.add_many]
  omega

/-- Sampler category: a resource sampler slot is the current sampler
counter, which the subsequent bump strictly increases; inline samplers
carry no resource slot. -/
theorem catSampler_target_facts :
    ∀ (l : DescriptorLayout) (counters : ResourceData) (inline_handle : Nat),
    ∀ x, catSamplerRes (mkTarget l counters inline_handle) = some x →
    x = counters.samplers ∧ counters.samplers + 1 ≤ (counters.add l.content).samplers := by
  intro l counters ih x hx
  by_cases him : l.content.immutable_sampler = true
  · simp [mkTarget, him, catSamplerRes] at hx
  · by_cases hs : l.content.sampler = true
    · simp only [mkTarget, him, hs, if_true, if_false, Bool.false_eq_true,
        catSamplerRes, Option.some.injEq] at hx
      subst hx
      refine ⟨rfl, ?_⟩
      simp [ResourceData.add, ResourceData.add_many, hs]
    · simp [mkTarget, him, hs, catSamplerRes] at hx

/-- The sampler counter never decreases under `add`. -/
theorem catSampler_mono : ∀ (counters : ResourceData) (content : DescriptorContent),
    counters.samplers ≤ (ResourceData.add counters content).samplers := by
  intro counters content
  simp only [ResourceData.add, ResourceData.add_many]
  omega

/-- An argument-buffer stage step leaves the binding map unchanged. -/
theorem bmap_processArgStage (i : Nat) (f : ShaderStageFlags) (st : PLState)
    (s : ShaderStage) :
    (processArgStage i f st s).binding_map = st.binding_map := by
  unfold processArgStage
  split_ifs
  · rfl
  · rw [bmap_setInfo]

/-- Provenance of one per-stage step: an entry is old, or keyed by this
stage, set and binding with array index 0. -/
theorem step_prov (i : Nat) (l : DescriptorLayout) (st : PLState) (s : ShaderStage) :
    ∀ kv ∈ (processLayoutStage i l st s).binding_map,
      kv ∈ st.binding_map ∨
      (kv.1 = ⟨s, i, l.binding⟩ ∧ l.array_index = 0 ∧
        l.stages.containsStage s = true) := by
  intro kv hkv
  unfold processLayoutStage at hkv
  by_cases hc : l.stages.containsStage s = false
  · simp only [hc, if_pos] at hkv
    exact Or.inl hkv
  · have hc2 : l.stages.containsStage s = true := by
      revert hc
      cases l.stages.containsStage s <;> simp
    rw [hc2] at hkv
    simp only [Bool.true_eq_false, if_false] at hkv
    by_cases him : l.content.immutable_sampler = true <;>
      simp only [him, if_true, if_false, Bool.false_eq_true] at hkv <;>
      by_cases ha : l.array_index = 0 <;>
      simp only [ha, if_true, if_false] at hkv
    · rcases bmInsert_mem hkv with h | h
      · rw [bmap_setInfo, bmap_inline] at h
        exact Or.inl h
      · exact Or.inr ⟨by rw [h], ha, hc2⟩
    · rw [bmap_setInfo, bmap_inline] at hkv
      exact Or.inl hkv
    · rcases bmInsert_mem hkv with h | h
      · rw [bmap_setInfo] at h
        exact Or.inl h
      · exact Or.inr ⟨by rw [h], ha, hc2⟩
    · rw [bmap_setInfo] at hkv
      exact Or.inl hkv

/-- Provenance of one emulated layout entry. -/
theorem entry_prov (i : Nat)
    (acc : PLState × List (MultiStageData Nat) × List (Nat × ShaderStageFlags))
    (l : DescriptorLayout) :
    ∀ kv ∈ ((processSetLayoutEntry i acc l).1).binding_map,
      kv ∈ acc.1.binding_map ∨
      (kv.1.group = i ∧ kv.1.binding = l.binding ∧ l.array_index = 0 ∧
        l.stages.containsStage kv.1.stage = true) := by
  intro kv hkv
  unfold processSetLayoutEntry at hkv
  dsimp only at hkv
  simp only [stageList, List.foldl_cons, List.foldl_nil] at hkv
  have hbase : ∀ kv2 : BindSource × BindTarget,
      kv2 ∈ ((if l.content.sized_buffer then bumpSizesCount acc.1 l.stages
        else acc.1)).binding_map → kv2 ∈ acc.1.binding_map := by
    intro kv2 h
    split_ifs at h with hs
    · rw [bmap_bumpSizes] at h
      exact h
    · exact h
  rcases step_prov i l _ ShaderStage.compute kv hkv with h | h
  · rcases step_prov i l _ ShaderStage.fragment kv h with h2 | h2
    · rcases step_prov i l _ ShaderStage.vertex kv h2 with h3 | h3
      · exact Or.inl (hbase kv h3)
      · exact Or.inr ⟨by rw [h3.1], by rw [h3.1], h3.2.1, by rw [h3.1]; exact h3.2.2⟩
    · exact Or.inr ⟨by rw [h2.1], by rw [h2.1], h2.2.1, by rw [h2.1]; exact h2.2.2⟩
  · exact Or.inr ⟨by rw [h.1], by rw [h.1], h.2.1, by rw [h.1]; exact h.2.2⟩

/-- Provenance across a whole emulated layout list. -/
theorem fold_entries_prov (i : Nat) :
    ∀ (ls : List DescriptorLayout)
      (acc : PLState × List (MultiStageData Nat) × List (Nat × ShaderStageFlags)),
    ∀ kv ∈ ((ls.foldl (processSetLayoutEntry i) acc).1).binding_map,
      kv ∈ acc.1.binding_map ∨
      ∃ l ∈ ls, kv.1.group = i ∧ kv.1.binding = l.binding ∧ l.array_index = 0 ∧
        l.stages.containsStage kv.1.stage = true := by
  intro ls
  induction ls with
  | nil => intro acc kv hkv; exact Or.inl hkv
  | cons l rest ih =>
    intro acc kv hkv
    simp only [List.foldl_cons] at hkv
    rcases ih _ kv hkv with h | h
    · rcases entry_prov i acc l kv h with h2 | h2
      · exact Or.inl h2
      · exact Or.inr ⟨l, List.mem_cons_self _ _, h2⟩
    · obtain ⟨l2, hl2, hrest⟩ := h
      exact Or.inr ⟨l2, List.mem_cons_of_mem _ hl2, hrest⟩

/-- Provenance across one descriptor set: only emulated sets add entries. -/
theorem processSet_prov (i : Nat) (sl : DescriptorSetLayout) (st : PLState) :
    ∀ kv ∈ ((processSet i sl st).1).binding_map,
      kv ∈ st.binding_map ∨
      ∃ ls total, sl = .emulated ls total ∧ kv.1.group = i ∧
        ∃ l ∈ ls, l.binding = kv.1.binding ∧ l.array_index = 0 ∧
          l.stages.containsStage kv.1.stage = true := by
  intro kv hkv
  cases sl with
  | emulated ls total =>
    simp only [processSet] at hkv
    rcases fold_entries_prov i ls (st, [], []) kv hkv with h | h
    · exact Or.inl h
    · obtain ⟨l, hl, hg, hb, ha, hs⟩ := h
      exact Or.inr ⟨ls, total, rfl, hg, l, hl, hb.symm, ha, hs⟩
  | argument_buffer f =>
    simp only [processSet, stageList, List.foldl_cons, List.foldl_nil] at hkv
    rw [bmap_processArgStage, bmap_processArgStage, bmap_processArgStage] at hkv
    exact Or.inl hkv

/-- Provenance across the whole descriptor-set phase. -/
theorem processSets_prov :
    ∀ (sets : List DescriptorSetLayout) (i : Nat) (st : PLState),
    ∀ kv ∈ ((processSets sets i st).1).binding_map,
      kv ∈ st.binding_map ∨
      ∃ j ls total, sets.get? j = some (.emulated ls total) ∧ kv.1.group = i + j ∧
        ∃ l ∈ ls, l.binding = kv.1.binding ∧ l.array_index = 0 ∧
          l.stages.containsStage kv.1.stage = true := by
  intro sets
  induction sets with
  | nil => intro i st kv hkv; exact Or.inl hkv
  | cons sl rest ih =>
    intro i st kv hkv
    simp only [processSets] at hkv
    rcases ih (i + 1) _ kv hkv with h | h
    · rcases processSet_prov i sl st kv h with h2 | h2
      · exact Or.inl h2
      · obtain ⟨ls, total, hsl, hg, hrest⟩ := h2
        subst hsl
        exact Or.inr ⟨0, ls, total, rfl, by omega, hrest⟩
    · obtain ⟨j, ls, total, hget, hg, hrest⟩ := h
      exact Or.inr ⟨j + 1, ls, total, by simpa using hget, by omega, hrest⟩

/-- C1: in every successfully produced pipeline layout, each binding-map
entry stems from an array-index-0 element of an emulated set layout at the
entry's set index whose stage mask includes the entry's stage, and no two
distinct entries of one stage share a slot in any resource category
(buffer, texture, or sampler). -/
theorem C1_binding_map_injective (caps : PrivateCaps)
    (sets : List DescriptorSetLayout)
    (ranges : List (ShaderStageFlags × PushConstantRange))
    (layout : PipelineLayout)
    (hok : create_pipeline_layout caps sets ranges = .ok layout) :
    (∀ kv ∈ layout.binding_map, ∃ ls total, sets.get? kv.1.group = some (.emulated ls total) ∧
        ∃ l ∈ ls, l.binding = kv.1.binding ∧ l.array_index = 0 ∧
          l.stages.containsStage kv.1.stage = true)
    ∧ (∀ kv1 ∈ layout.binding_map, ∀ kv2 ∈ layout.binding_map,
        kv1 ≠ kv2 → kv1.1.stage = kv2.1.stage →
        (∀ x1 x2, kv1.2.buffer = some x1 → kv2.2.buffer = some x2 → x1 ≠ x2) ∧
        (∀ x1 x2, kv1.2.texture = some x1 → kv2.2.texture = some x2 → x1 ≠ x2) ∧
        (∀ x1 x2, kv1.2.sampler = some (.resource x1) →
          kv2.2.sampler = some (.resource x2) → x1 ≠ x2)) := by
  obtain ⟨vsInfo, psInfo, csInfo, hv, hp, hc, hlay⟩ := create_ok_cases caps sets ranges layout hok
  have hmap : layout.binding_map = (processSets sets 0 (initialState ranges)).1.binding_map := by
    rw [hlay]
  have hinitmap : (initialState ranges).binding_map = [] := rfl
  constructor
  · intro kv hkv
    rw [hmap] at hkv
    rcases processSets_prov sets 0 (initialState ranges) kv hkv with h | h
    · rw [hinitmap] at h
      cases h
    · obtain ⟨j, ls, total, hget, hg, hrest⟩ := h
      rw [hg]
      simp only [Nat.zero_add]
      exact ⟨ls, total, hget, hrest⟩
  · have hBinit : ∀ (cat : BindTarget → Option Nat) (cnt : ResourceData → Nat),
        SlotBound cat cnt (initialState ranges) := by
      intro cat cnt kv hkv
      rw [hinitmap] at hkv
      cases hkv
    have hDinit : ∀ cat : BindTarget → Option Nat,
        SlotsDistinct cat (initialState ranges).binding_map := by
      intro cat kv1 h1
      rw [hinitmap] at h1
      cases h1
    have hbuf := processSets_inv (fun t => t.buffer) (fun r => r.buffers)
      catBuffer_target_facts catBuffer_mono (fun c => by dsimp only; omega)
      sets 0 (initialState ranges) (hBinit _ _) (hDinit _)
    have htex := processSets_inv (fun t => t.texture) (fun r => r.textures)
      catTexture_target_facts catTexture_mono (fun c => by dsimp only; omega)
      sets 0 (initialState ranges) (hBinit _ _) (hDinit _)
    have hsam := processSets_inv catSamplerRes (fun r => r.samplers)
      catSampler_target_facts catSampler_mono (fun c => by dsimp only; omega)
      sets 0 (initialState ranges) (hBinit _ _) (hDinit _)
    intro kv1 h1 kv2 h2 hne hstage
    rw [hmap] at h1 h2
    refine ⟨?_, ?_, ?_⟩
    · intro x1 x2 hx1 hx2
      exact hbuf.2 kv1 h1 kv2 h2 hne hstage x1 x2 hx1 hx2
    · intro x1 x2 hx1 hx2
      exact htex.2 kv1 h1 kv2 h2 hne hstage x1 x2 hx1 hx2
    · intro x1 x2 hx1 hx2
      exact hsam.2 kv1 h1 kv2 h2 hne hstage x1 x2
        (by simp [catSamplerRes, hx1]) (by simp [catSamplerRes, hx2])

/-- A failed association-list lookup means the key is absent. -/
theorem lookup_none_not_mem {κ υ : Type} [DecidableEq κ] :
    ∀ (cache : List (κ × υ)) (k : κ), cache.lookup k = none → k ∉ cache.map Prod.fst := by
  intro cache
  induction cache with
  | nil => simp
  | cons p rest ih =>
    intro k hl
    obtain ⟨k1, v1⟩ := p
    by_cases hk : k = k1
    · subst hk
      simp [List.lookup] at hl
    · simp only [List.lookup, beq_iff_eq, hk, if_neg] at hl
      simp only [List.map_cons, List.mem_cons, not_or]
      refine ⟨hk, ?_⟩
      have hbeq : (k == k1) = false := by simpa using hk
      rw [hbeq] at hl
      exact ih k hl

/-- A successful association-list lookup returns a stored pair. -/
theorem lookup_some_mem {κ υ : Type} [DecidableEq κ] :
    ∀ (cache : List (κ × υ)) (k : κ) (v : υ), cache.lookup k = some v → (k, v) ∈ cache := by
  intro cache
  induction cache with
  | nil => intro k v h; cases h
  | cons p rest ih =>
    intro k v hl
    obtain ⟨k1, v1⟩ := p
    by_cases hk : k = k1
    · subst hk
      simp [List.lookup] at hl
      simp [hl]
    · have hbeq : (k == k1) = false := by simpa using hk
      simp only [List.lookup, hbeq] at hl
      exact List.mem_cons_of_mem _ (ih k v hl)

/-- A held key never fails to look up. -/
theorem lookup_mem_some {κ υ : Type} [DecidableEq κ] :
    ∀ (cache : List (κ × υ)) (k : κ), k ∈ cache.map Prod.fst → cache.lookup k ≠ none := by
  intro cache k hmem hl
  exact lookup_none_not_mem cache k hl hmem

/-- A key the cache already holds is never recomputed. -/
theorem getOrCreateWith_never_recompute {κ υ : Type} [DecidableEq κ] (f : κ → υ)
    (cache : List (κ × υ)) (k : κ) (hmem : k ∈ cache.map Prod.fst) :
    (getOrCreateWith f cache k).2.2 = false := by
  unfold getOrCreateWith
  cases hl : cache.lookup k with
  | some v => rfl
  | none => exact absurd hl (lookup_mem_some cache k hmem)

/-- On a consistent cache, every response equals a fresh computation. -/
theorem getOrCreateWith_value {κ υ : Type} [DecidableEq κ] (f : κ → υ)
    (cache : List (κ × υ)) (k : κ) (hcons : ∀ kv ∈ cache, kv.2 = f kv.1) :
    (getOrCreateWith f cache k).1 = f k := by
  unfold getOrCreateWith
  cases hl : cache.lookup k with
  | some v => exact hcons (k, v) (lookup_some_mem cache k v hl)
  | none => rfl

/-- `get_or_create_with` keeps the cache consistent. -/
theorem getOrCreateWith_cons {κ υ : Type} [DecidableEq κ] (f : κ → υ)
    (cache : List (κ × υ)) (k : κ) (hcons : ∀ kv ∈ cache, kv.2 = f kv.1) :
    ∀ kv ∈ (getOrCreateWith f cache k).2.1, kv.2 = f kv.1 := by
  unfold getOrCreateWith
  cases hl : cache.lookup k with
  | some v => exact hcons
  | none =>
    intro kv hkv
    simp only [List.mem_append, List.mem_singleton] at hkv
    rcases hkv with h | h
    · exact hcons kv h
    · rw [h]

/-- The keys after `get_or_create_with` are the old keys plus the request. -/
theorem getOrCreateWith_keys {κ υ : Type} [DecidableEq κ] (f : κ → υ)
    (cache : List (κ × υ)) (k : κ) (x : κ) :
    x ∈ ((getOrCreateWith f cache k).2.1).map Prod.fst ↔
      x ∈ cache.map Prod.fst ∨ x = k := by
  unfold getOrCreateWith
  cases hl : cache.lookup k with
  | some v =>
    simp only []
    constructor
    · exact Or.inl
    · intro h
      rcases h with h | h
      · exact h
      · subst h
        cases hl2 : cache.lookup x with
        | some v2 => exact List.mem_map.mpr ⟨(x, v2), lookup_some_mem cache x v2 hl2, rfl⟩
        | none => rw [hl2] at hl; cases hl
  | none =>
    simp [List.mem_append]

/-- Over any linearized trace: responses are fresh-computation values and
the translation for a key runs at most once (never, if already cached). -/
theorem runRequests_facts {κ υ : Type} [DecidableEq κ] (f : κ → υ) (k : κ) :
    ∀ (requests : List κ) (cache : List (κ × υ)),
    (∀ kv ∈ cache, kv.2 = f kv.1) →
    ((runRequests f cache requests).1.map Prod.fst = requests.map f) ∧
    (((requests.zip (runRequests f cache requests).1).filter
        (fun p => decide (p.1 = k) && p.2.2)).length
      ≤ if k ∈ cache.map Prod.fst then 0 else 1) := by
  intro requests
  induction requests with
  | nil =>
    intro cache hcons
    constructor
    · rfl
    · simp only [runRequests, List.zip_nil_left, List.filter_nil, List.length_nil]
      split_ifs <;> omega
  | cons k1 rest ih =>
    intro cache hcons
    have hval := getOrCreateWith_value f cache k1 hcons
    have hcons2 := getOrCreateWith_cons f cache k1 hcons
    have hrest := ih (getOrCreateWith f cache k1).2.1 hcons2
    constructor
    · simp only [runRequests, List.map_cons]
      rw [hval, hrest.1]
    · simp only [runRequests, List.zip_cons_cons, List.filter_cons]
      by_cases hkk : k1 = k
      · subst hkk
        by_cases hmem : k1 ∈ cache.map Prod.fst
        · have hflag := getOrCreateWith_never_recompute f cache k1 hmem
          simp only [hflag, eq_self_iff_true, decide_True, Bool.and_false,
            Bool.false_eq_true, if_false]
          have hmem2 : k1 ∈ ((getOrCreateWith f cache k1).2.1).map Prod.fst :=
            (getOrCreateWith_keys f cache k1 k1).mpr (Or.inr rfl)
          have h2 := hrest.2
          rw [if_pos hmem2] at h2
          rw [if_pos hmem]
          exact h2
        · have hmem2 : k1 ∈ ((getOrCreateWith f cache k1).2.1).map Prod.fst :=
            (getOrCreateWith_keys f cache k1 k1).mpr (Or.inr rfl)
          have h2 := hrest.2
          rw [if_pos hmem2] at h2
          rw [if_neg hmem]
          by_cases hflag : (getOrCreateWith f cache k1).2.2 = true
          · simp only [hflag, eq_self_iff_true, decide_True, Bool.true_and, if_pos,
              List.length_cons]
            omega
          · simp only [Bool.not_eq_true] at hflag
            simp only [hflag, eq_self_iff_true, decide_True, Bool.and_false,
              Bool.false_eq_true, if_false]
            omega
      · have hh : (decide (k1 = k) && (getOrCreateWith f cache k1).2.2) = false := by
          simp [hkk]
        simp only [hh, Bool.false_eq_true, if_false]
        have h2 := hrest.2
        by_cases hmem : k ∈ cache.map Prod.fst
        · have hmem2 : k ∈ ((getOrCreateWith f cache k1).2.1).map Prod.fst :=
            (getOrCreateWith_keys f cache k1 k).mpr (Or.inl hmem)
          rw [if_pos hmem2] at h2
          rw [if_pos hmem]
          exact h2
        · have hmem2 : k ∉ ((getOrCreateWith f cache k1).2.1).map Prod.fst := by
            intro hx
            rcases (getOrCreateWith_keys f cache k1 k).mp hx with h | h
            · exact hmem h
            · exact hkk h.symm
          rw [if_neg hmem2] at h2
          rw [if_neg hmem]
          exact h2

/-- Every response of a trace equals the fresh computation for its key. -/
theorem runRequests_responses {κ υ : Type} [DecidableEq κ] (f : κ → υ) :
    ∀ (requests : List κ) (cache : List (κ × υ)),
    (∀ kv ∈ cache, kv.2 = f kv.1) →
    (runRequests f cache requests).1.map Prod.fst = requests.map f := by
  intro requests
  induction requests with
  | nil => intro cache _; rfl
  | cons k1 rest ih =>
    intro cache hcons
    simp only [runRequests, List.map_cons]
    rw [getOrCreateWith_value f cache k1 hcons,
      ih _ (getOrCreateWith_cons f cache k1 hcons)]

/-- C7: over any linearized trace of compile requests, every caller for a
key receives content identical to a fresh computation for that key, the
translation for a key is computed at most once, and a key the cache already
holds is never recomputed. -/
theorem C7_compile_cache_at_most_once {κ υ : Type} [DecidableEq κ] (f : κ → υ) (requests : List κ) :
    ((runRequests f [] requests).1.map Prod.fst = requests.map f) ∧
    (∀ k, ((requests.zip (runRequests f [] requests).1).filter
        (fun p => decide (p.1 = k) && p.2.2)).length ≤ 1) ∧
    (∀ (cache : List (κ × υ)) (k : κ), k ∈ cache.map Prod.fst →
      (getOrCreateWith f cache k).2.2 = false) := by
  refine ⟨?_, ?_, ?_⟩
  · exact runRequests_responses f requests [] (by intro kv h; cases h)
  · intro k
    have h := (runRequests_facts f k requests [] (by intro kv h; cases h)).2
    simp only [List.map_nil, List.not_mem_nil, if_false] at h
    simpa using h
  · exact fun cache k => getOrCreateWith_never_recompute f cache k

/-- C4 counterexample: a single 8-byte vertex push-constant range is
recorded as 2 words — nonzero yet not a multiple of 4 — because the source
leaves word counts of three or fewer unrounded, refuting the claim's
"always a multiple of 4 words when nonzero". -/
theorem C4_two_words_not_rounded :
    ((create_pipeline_layout exampleCaps [] [(⟨true, false, false⟩, ⟨0, 8⟩)]).toOption.map
      (fun L => L.push_constants.vs)) = some (some ⟨2, 0⟩) ∧ (2 : Nat) % 4 ≠ 0 :=
  ⟨rfl, by decide⟩

/-- C4 witness: the 8-byte vertex range yields word count 2 at buffer
slot 0, as the amended statement computes. -/
theorem C4_push_constant_words_witness :
    ∃ L, create_pipeline_layout exampleCaps [] [(⟨true, false, false⟩, ⟨0, 8⟩)] = .ok L ∧
      L.push_constants.get .vertex = some ⟨2, 0⟩ := by
  refine ⟨_, rfl, ?_⟩
  have h := (C4_push_constant_words_amended exampleCaps []
    [(⟨true, false, false⟩, ⟨0, 8⟩)] _ rfl .vertex).1
  rw [h]
  decide

/-- C1 witness: in the three-set example, the vertex entry of set 0
binding 0 stems from an array-index-0 element of an emulated layout. -/
theorem C1_binding_map_witness :
    ∃ ls total, [exampleSet, exampleSet, exampleSet].get? 0
        = some (DescriptorSetLayout.emulated ls total) ∧
      ∃ l ∈ ls, l.binding = 0 ∧ l.array_index = 0 ∧
        l.stages.containsStage .vertex = true := by
  have h := (C1_binding_map_injective exampleCaps [exampleSet, exampleSet, exampleSet]
    exampleRanges _ rfl).1
  exact h (⟨.vertex, 0, 0⟩, ⟨some 1, none, none, false⟩) (by decide)
